import Mathlib

/-!
# Snowshoe scalar multiplication core (`ecmul.cpp`)

A shallow embedding of `src/snowshoe/ecmul.cpp`.

* Machine words are natural numbers with explicit reduction: a `u128` is a
  `Nat` reduced modulo `2^128`, a `u32` modulo `2^32`, a `u64` modulo `2^64`.
* A `ufp` (a 128-bit subscalar, `a.w` as one word, `a.i[0]` its low 64-bit limb)
  is a `Nat`; `a.i[0]` is `a % 2^64`.
* Curve points in extended coordinates (`ecpt`) are elements of a commutative
  additive group `G`; the point arithmetic of `ecpt.cpp` is not part of the
  translated file and is modelled from its contract.
* The selection routines work on a point as it lies in memory, `n` words of 128
  bits: `ec_set_mask` ORs the masked words of a table entry into the output
  variable, whose content on entry is an argument of the model. How points are
  stored and read back belongs to `ecpt.cpp` and is a parameter (`Store`).
* `gls_decompose`, `gls_morph`, `ec_expand`, `ec_affine` and the generator
  constants come from other files and are taken as parameters (`Ext`).
-/

namespace Snowshoe

/-! ## Machine words -/

/-- Modulus of the `u128` type. -/
def U128 : Nat := 2 ^ 128

/-- Modulus of the `u64` type. -/
def U64 : Nat := 2 ^ 64

/-- Modulus of the `u32` type. -/
def U32 : Nat := 2 ^ 32

/-- A 256-bit scalar `u64 k[4]`, little-endian limb order. -/
structure Scalar where
  k0 : Nat
  k1 : Nat
  k2 : Nat
  k3 : Nat
deriving DecidableEq, Repr

/-- Every limb of the scalar is a `u64`. -/
def Scalar.wf (k : Scalar) : Prop :=
  k.k0 < 2 ^ 64 ∧ k.k1 < 2 ^ 64 ∧ k.k2 < 2 ^ 64 ∧ k.k3 < 2 ^ 64

instance (k : Scalar) : Decidable k.wf := by
  unfold Scalar.wf; infer_instance

/-- The integer a scalar denotes: limb `i` has weight `2^(64 i)`. -/
def Scalar.val (k : Scalar) : Nat :=
  k.k0 + k.k1 * 2 ^ 64 + k.k2 * 2 ^ 128 + k.k3 * 2 ^ 192

/-- Prime order of the curve, from the comment in `ec_mask_scalar`. -/
def EC_Q : Nat := 0x0FFFFFFFFFFFFFFFFFFFFFFFFFFFFFFFA6261414C0DC87D3CE9B68E3B09E01A5

/-! ## Scalar masking -/

/-- Source `ec_mask_scalar`: `k[3] &= 0x07FFFFFFFFFFFFFF`. -/
def ec_mask_scalar (k : Scalar) : Scalar :=
  { k with k3 := k.k3 &&& 0x07FFFFFFFFFFFFFF }

/-! ## GLV-SAC recoding -/

/-- The sign-propagation loop of `ec_recode_scalars_2`,
`for (ii = 1; ii < len; ++ii) { anmask = an & mask; b += (b & anmask) << 1; mask <<= 1; }`,
with `n` the number of iterations still to run. -/
def recode_loop_2 (an : Nat) : Nat → Nat → Nat → Nat
  | 0, b, _ => b
  | n + 1, b, mask =>
    let anmask := an &&& mask
    let b1 := (b + ((b &&& anmask) <<< 1) % U128) % U128
    recode_loop_2 an n b1 ((mask <<< 1) % U128)

/-- Source `ec_recode_scalars_2(a, b, len)`: returns `(lsb, a, b)`, the returned
word and the two subscalars as they are left in place. -/
def ec_recode_scalars_2 (a b : Nat) (len : Nat) : Nat × Nat × Nat :=
  let lsb := (((a % U64) % U32) &&& 1) ^^^ 1
  let a1 := (a + U128 - lsb) % U128
  let a2 := a1 >>> 1
  let a3 := a2 ||| ((1 <<< (len - 1)) % U128)
  let an := (U128 - 1) ^^^ a3
  let b1 := recode_loop_2 an (len - 1) b 1
  (lsb, a3, b1)

/-- The sign-propagation loop of `ec_recode_scalars_4`, on `b`, `c`, `d` at once. -/
def recode_loop_4 (an : Nat) : Nat → Nat → Nat → Nat → Nat → Nat × Nat × Nat
  | 0, b, c, d, _ => (b, c, d)
  | n + 1, b, c, d, mask =>
    let anmask := an &&& mask
    let b1 := (b + ((b &&& anmask) <<< 1) % U128) % U128
    let c1 := (c + ((c &&& anmask) <<< 1) % U128) % U128
    let d1 := (d + ((d &&& anmask) <<< 1) % U128) % U128
    recode_loop_4 an n b1 c1 d1 ((mask <<< 1) % U128)

/-- Source `ec_recode_scalars_4(a, b, c, d, len)`: returns `(lsb, a, b, c, d)`. -/
def ec_recode_scalars_4 (a b c d : Nat) (len : Nat) : Nat × Nat × Nat × Nat × Nat :=
  let lsb := (((a % U64) % U32) &&& 1) ^^^ 1
  let a1 := (a + U128 - lsb) % U128
  let a2 := a1 >>> 1
  let a3 := a2 ||| ((1 <<< (len - 1)) % U128)
  let an := (U128 - 1) ^^^ a3
  let r := recode_loop_4 an (len - 1) b c d 1
  (lsb, a3, r.1, r.2.1, r.2.2)

/-! ## Curve layer (external to `ecmul.cpp`) -/

/-- An affine point `ecpt_affine`: a pair of field elements. -/
structure ecpt_affine (F : Type) where
  x : F
  y : F
deriving DecidableEq, Repr

/-- What `ecmul.cpp` takes from the files it includes and whose behaviour the
translated file does not fix: the endomorphism, the scalar decomposition, the
two coordinate conversions and the generator constants. `gls_decompose k` is
`(asign, a, bsign, b)`, the signs being `s32` values. -/
structure Ext (F G : Type) where
  gls_morph : F → F → F × F
  gls_decompose : Scalar → Int × Nat × Int × Nat
  ec_expand : ecpt_affine F → G
  ec_affine : G → ecpt_affine F
  EC_GX : F
  EC_GY : F

section Masks

variable {F G : Type}

/-- Modelled from the spec: `fe_set(src, dst)` of the field layer, "Copy a field
element". -/
def fe_set (src : F) : F := src

/-- The affine point `Qa` that `ec_mul` and `ec_simul` fill with
`gls_morph(P.x, P.y, Qa.x, Qa.y)`. -/
def gls_morph_point (E : Ext F G) (P : ecpt_affine F) : ecpt_affine F :=
  ⟨(E.gls_morph P.x P.y).1, (E.gls_morph P.x P.y).2⟩

end Masks

/-! ## Selection on the stored words of a point -/

section Bits

variable {n : Nat}

/-- Modelled from the spec: `ec_gen_mask(i, k)` of `ecpt.cpp` as the word it
returns, "all-ones 128-bit pattern if i == k, else all-zeros". -/
def ec_gen_mask_bits (i k : Nat) : Nat := if i = k then U128 - 1 else 0

/-- Modelled from the spec: `ec_set_mask(src, mask, r)` of `ecpt.cpp` on the
stored form of a point, taken as `n` words of 128 bits: "OR `(src & mask)` into
r, field-element-wise". -/
def ec_set_mask_bits (src : Fin n → Nat) (mask : Nat) (r : Fin n → Nat) : Fin n → Nat :=
  fun w => r w ||| (src w &&& mask)

/-- The masked scan of the selection routines on stored words:
`for (ii = 0; ii < 8; ++ii) ec_set_mask(table[ii], ec_gen_mask(ii, k), r)`. -/
def ec_table_scan_bits (table : Fin 8 → Fin n → Nat) (k : Nat) (r : Fin n → Nat) :
    Fin n → Nat :=
  (List.finRange 8).foldl
    (fun r ii => ec_set_mask_bits (table ii) (ec_gen_mask_bits ii.val k) r) r

/-- Modelled from the spec: `ec_cond_neg(flag, pt)` of `ecpt.cpp` on stored
words, "Negate pt iff flag is truthy"; what negation does to the stored words is
the parameter `neg`. -/
def ec_cond_neg_bits (neg : (Fin n → Nat) → (Fin n → Nat)) (flag : Int)
    (pt : Fin n → Nat) : Fin n → Nat :=
  if flag = 0 then pt else neg pt

/-- Source `ec_table_select_2(table, a, b, index, r)` on stored words; `r` is the
content of the output variable on entry. -/
def ec_table_select_2_bits (neg : (Fin n → Nat) → (Fin n → Nat))
    (table : Fin 8 → Fin n → Nat) (a b : Nat) (index : Nat) (r : Fin n → Nat) :
    Fin n → Nat :=
  let bits := (a >>> index) % U32
  let k := (((bits ^^^ (bits >>> 1)) &&& 1) <<< 2) % U32
  let k := k ||| (((b >>> index) % U32) &&& 3)
  let r := ec_table_scan_bits table k r
  ec_cond_neg_bits neg ((((bits >>> 1) &&& 1) ^^^ 1 : Nat) : Int) r

/-- Source `ec_table_select_4(table, a, b, c, d, index, r)` on stored words. -/
def ec_table_select_4_bits (neg : (Fin n → Nat) → (Fin n → Nat))
    (table : Fin 8 → Fin n → Nat) (a b c d : Nat) (index : Nat) (r : Fin n → Nat) :
    Fin n → Nat :=
  let k := ((b >>> index) % U32) &&& 1
  let k := k ||| (((((c >>> index) % U32) &&& 1) <<< 1) % U32)
  let k := k ||| (((((d >>> index) % U32) &&& 1) <<< 2) % U32)
  let r := ec_table_scan_bits table k r
  ec_cond_neg_bits neg ((((a >>> index) &&& 1) ^^^ 1 : Nat) : Int) r

end Bits

/-! ## Points in memory -/

/-- How the curve layer keeps an `ecpt` in memory, as far as `ecmul.cpp` depends
on it: a point takes `n` words of 128 bits, `store p` are the words of the point
`p`, and `load w` is the point that a memory content `w` is read as, whether or
not anything was stored there. Both belong to `ecpt.cpp` and are parameters. -/
structure Store (G : Type) (n : Nat) where
  store : G → Fin n → Nat
  load : (Fin n → Nat) → G

/-- The two facts about the stored form that statements about values assume:
reading back the words of a point gives the point, and every stored word is a
128-bit word. -/
def Store.wf {G : Type} {n : Nat} (S : Store G n) : Prop :=
  (∀ p, S.load (S.store p) = p) ∧ (∀ p w, S.store p w < U128)

section Curve

variable {F G : Type} [AddCommGroup G] {n : Nat}

/-- Modelled from the spec: `ec_set(src, dst)` of `ecpt.cpp`, a copy of a point. -/
def ec_set (src : G) : G := src

/-- Modelled from the spec: `ec_neg(src, dst)` of `ecpt.cpp`, "Negate a point
unconditionally". -/
def ec_neg (src : G) : G := -src

/-- Modelled from the spec: `ec_add(A, B, R, ...flags, t2b)` of `ecpt.cpp`, "Add
two extended points"; the flags and `t2b` are optimisation hints and scratch
storage and do not change the sum. -/
def ec_add (a b : G) : G := a + b

/-- Modelled from the spec: `ec_dbl(A, R, last, t2b)` of `ecpt.cpp`, "Double an
extended point". -/
def ec_dbl (a : G) : G := a + a

/-- Modelled from the spec: `ec_cond_neg(flag, pt)` of `ecpt.cpp`, "Negate pt iff
flag is truthy". -/
def ec_cond_neg (flag : Int) (pt : G) : G := if flag = 0 then pt else -pt

/-- Modelled from the spec: `ec_cond_add(flag, A, B, R, ...)` of `ecpt.cpp`, "Add
iff flag, else copy A to R". -/
def ec_cond_add (flag : Nat) (a b : G) : G := if flag = 0 then a else ec_add a b

/-- Source `ec_gen_table_2(a, b, TABLE)`: the eight entries in the order the
source computes them. -/
def ec_gen_table_2 (a b : G) : Fin 8 → G :=
  let bn := ec_neg b
  let t4 := ec_set a
  let t5 := ec_add a bn
  let t7 := ec_add a b
  let t6 := ec_add t7 b
  let a2 := ec_dbl a
  let t0 := ec_add a2 a
  let t1 := ec_add t0 b
  let t2 := ec_add t1 b
  let t3 := ec_add t2 b
  ![t0, t1, t2, t3, t4, t5, t6, t7]

/-- What negation does to the words of a point: the words of the negated
point. -/
def neg_words (S : Store G n) (w : Fin n → Nat) : Fin n → Nat := S.store (ec_neg (S.load w))

/-- Source `ec_table_select_2(table, a, b, index, r)` as its callers see it. The
callers hold points; the routine itself, `ec_table_select_2_bits`, works on the
words in memory: the table entries in their stored form and `r`, the content of
the output variable on entry, which the routine does not clear. The result is
the point the output variable is read as on return. -/
def ec_table_select_2 (S : Store G n) (table : Fin 8 → G) (a b : Nat) (index : Nat)
    (r : Fin n → Nat) : G :=
  S.load (ec_table_select_2_bits (neg_words S) (fun ii => S.store (table ii)) a b index r)

/-- The main loop of `ec_mul`,
`for (ii = 124; ii >= 0; ii -= 2) { select T at ii; X = 2X; X = 2X; X = X + T; }`,
with `n` the number of iterations still to run, so that `ii = 2 (n - 1)`;
`junk` is the memory content of the fresh variable `T`. -/
def ec_mul_loop (S : Store G n) (table : Fin 8 → G) (a b : Nat) (junk : Fin n → Nat) :
    Nat → G → G
  | 0, X => X
  | m + 1, X =>
    let T := ec_table_select_2 S table a b (2 * m) junk
    let X := ec_dbl X
    let X := ec_dbl X
    let X := ec_add X T
    ec_mul_loop S table a b junk m X

/-- Source `ec_mul(k, P0, R)`: returns `R`. `junk` is the memory content of the
variables `X` and `T`, which the source declares without initialising and hands
to `ec_table_select_2` as they are. -/
def ec_mul (E : Ext F G) (S : Store G n) (junk : Fin n → Nat) (k : Scalar)
    (P0 : ecpt_affine F) : ecpt_affine F :=
  let (asign, a, bsign, b) := E.gls_decompose k
  let Qa := gls_morph_point E P0
  let Q := E.ec_expand Qa
  let Q := ec_cond_neg bsign Q
  let P := E.ec_expand P0
  let P := ec_cond_neg asign P
  let table := ec_gen_table_2 P Q
  let (recode_bit, a, b) := ec_recode_scalars_2 a b 128
  let X := ec_table_select_2 S table a b 126 junk
  let X := ec_mul_loop S table a b junk 63 X
  let X := ec_cond_add recode_bit X P
  let X := ec_dbl X
  let X := ec_dbl X
  E.ec_affine X

/-- Source `ec_mul_gen(k, R)`. -/
def ec_mul_gen (E : Ext F G) (S : Store G n) (junk : Fin n → Nat) (k : Scalar) :
    ecpt_affine F :=
  let P : ecpt_affine F := ⟨fe_set E.EC_GX, fe_set E.EC_GY⟩
  ec_mul E S junk k P

/-- Source `ec_gen_table_4(a, b, c, d, TABLE)`. -/
def ec_gen_table_4 (a b c d : G) : Fin 8 → G :=
  let t0 := ec_set a
  let t1 := ec_add a b
  let t2 := ec_add a c
  let t3 := ec_add t1 c
  let t4 := ec_add a d
  let t5 := ec_add t1 d
  let t6 := ec_add t2 d
  let t7 := ec_add t3 d
  ![t0, t1, t2, t3, t4, t5, t6, t7]

/-- Source `ec_table_select_4(table, a, b, c, d, index, r)` as its callers see
it, in the same way as `ec_table_select_2`. -/
def ec_table_select_4 (S : Store G n) (table : Fin 8 → G) (a b c d : Nat) (index : Nat)
    (r : Fin n → Nat) : G :=
  S.load (ec_table_select_4_bits (neg_words S) (fun ii => S.store (table ii)) a b c d index r)

/-- The point read back from a scan for index `k` that starts on zero words. -/
def scan_from_zero (S : Store G n) (table : Fin 8 → G) (k : Nat) : G :=
  S.load (ec_table_scan_bits (fun ii => S.store (table ii)) k (fun _ => 0))

/-- The main loop of `ec_simul`,
`for (ii = 125; ii >= 0; --ii) { select T at ii; X = 2X; X = X + T; }`,
with `n` the number of iterations still to run, so that `ii = n - 1`. -/
def ec_simul_loop (S : Store G n) (table : Fin 8 → G) (a b c d : Nat) (junk : Fin n → Nat) :
    Nat → G → G
  | 0, X => X
  | m + 1, X =>
    let T := ec_table_select_4 S table a b c d m junk
    let X := ec_dbl X
    let X := ec_add X T
    ec_simul_loop S table a b c d junk m X

/-- Source `ec_simul(a, P, b, Q, R)`: returns `R`; `junk` as in `ec_mul`. -/
def ec_simul (E : Ext F G) (S : Store G n) (junk : Fin n → Nat) (a : Scalar)
    (P : ecpt_affine F) (b : Scalar) (Q : ecpt_affine F) : ecpt_affine F :=
  let (a0sign, a0, a1sign, a1) := E.gls_decompose a
  let (b0sign, b0, b1sign, b1) := E.gls_decompose b
  let P1a := gls_morph_point E P
  let Q1a := gls_morph_point E Q
  let P1 := E.ec_expand P1a
  let Q1 := E.ec_expand Q1a
  let P0 := E.ec_expand P
  let Q0 := E.ec_expand Q
  let P0 := ec_cond_neg a0sign P0
  let Q0 := ec_cond_neg b0sign Q0
  let P1 := ec_cond_neg a1sign P1
  let Q1 := ec_cond_neg b1sign Q1
  let table := ec_gen_table_4 P0 P1 Q0 Q1
  let (recode_bit, a0, a1, b0, b1) := ec_recode_scalars_4 a0 a1 b0 b1 127
  let X := ec_table_select_4 S table a0 a1 b0 b1 126 junk
  let X := ec_simul_loop S table a0 a1 b0 b1 junk 126 X
  let X := ec_cond_add recode_bit X P0
  let X := ec_dbl X
  let X := ec_dbl X
  E.ec_affine X

end Curve

/-! ## Digit values of a recoded pair -/

/-- The signed digit read off bit `i` of a recoded sign subscalar: `+1` for a
one bit, `-1` for a zero bit. -/
def sac_digit (a : Nat) (i : Nat) : Int := if a.testBit i then 1 else -1

/-- Bit `i` of a subscalar as an integer. -/
def bit_at (b : Nat) (i : Nat) : Int := if b.testBit i then 1 else 0

/-- The integer the low `len` signed digits of `a` denote. -/
def sac_value (a : Nat) (len : Nat) : Int :=
  ∑ i in Finset.range len, sac_digit a i * 2 ^ i

/-- The integer the low `len` bits of `b` denote when bit `i` carries the sign
read off bit `i` of `a`. -/
def sac_value_mag (a b : Nat) (len : Nat) : Int :=
  ∑ i in Finset.range len, sac_digit a i * bit_at b i * 2 ^ i

/-- The sign a decomposition flag stands for. -/
def sign_of (flag : Int) : Int := if flag = 0 then 1 else -1

/-! ## Toy instance used to exercise the statements -/

/-- A toy curve layer: points are the integers modulo `2^128`, the endomorphism
multiplies by `2^64`, the decomposition reads the subscalars off the two low
limbs and the signs off the two high limbs (so it is a correct decomposition of
every scalar below `2^128`). -/
def toyExt : Ext (ZMod (2 ^ 128)) (ZMod (2 ^ 128)) where
  gls_morph := fun x y => (2 ^ 64 * x, y)
  gls_decompose := fun k => ((k.k2 : Int), k.k0, (k.k3 : Int), k.k1)
  ec_expand := fun p => p.x
  ec_affine := fun X => ⟨X, 0⟩
  EC_GX := 1
  EC_GY := 0

/-- The toy points in memory: one word holding the residue. -/
def toyStore : Store (ZMod (2 ^ 128)) 1 where
  store := fun p _ => p.val
  load := fun w => ((w 0 : Nat) : ZMod (2 ^ 128))

/-! ## Parts of the selection routines -/

/-- The table index `k` that `ec_table_select_2` computes before its scan. -/
def ec_table_select_2_k (a b index : Nat) : Nat :=
  let bits := (a >>> index) % U32
  let k := (((bits ^^^ (bits >>> 1)) &&& 1) <<< 2) % U32
  k ||| (((b >>> index) % U32) &&& 3)

/-- The flag `ec_table_select_2` hands to `ec_cond_neg`: `((bits >> 1) & 1) ^ 1`. -/
def ec_table_select_2_flag (a index : Nat) : Nat :=
  let bits := (a >>> index) % U32
  ((bits >>> 1) &&& 1) ^^^ 1

/-- The table index `k` that `ec_table_select_4` computes before its scan. -/
def ec_table_select_4_k (b c d index : Nat) : Nat :=
  let k := ((b >>> index) % U32) &&& 1
  let k := k ||| (((((c >>> index) % U32) &&& 1) <<< 1) % U32)
  k ||| (((((d >>> index) % U32) &&& 1) <<< 2) % U32)

/-- The flag `ec_table_select_4` hands to `ec_cond_neg`: `((a.w >> index) & 1) ^ 1`. -/
def ec_table_select_4_flag (a index : Nat) : Nat := ((a >>> index) &&& 1) ^^^ 1

/-! ## The sign-propagation pass by bit position -/

/-- One pass `b <- b + ((b & anmask) << 1)` with `anmask = an & (1 << i)`,
arithmetic modulo `2^128`. -/
def sign_propagation_step (an i b : Nat) : Nat :=
  (b + ((b &&& (an &&& ((1 <<< i) % U128))) <<< 1) % U128) % U128

/-- The pass applied `n` times, at the bit positions `i`, `i + 1`, ...,
`i + n - 1` in increasing order. -/
def sign_propagation (an : Nat) : Nat → Nat → Nat → Nat
  | 0, _, b => b
  | n + 1, i, b => sign_propagation an n (i + 1) (sign_propagation_step an i b)

/-- The recoded `b` as the specification words step 3 of the recoding: starting
from the original `b`, for `i` from 1 to `len - 1` in increasing order,
`b <- b + ((b & anmask) << 1)` with `anmask = (~a') & (1 << i)`, `a'` the
recoded `a`. -/
def spec_recode_b (a b len : Nat) : Nat :=
  sign_propagation ((U128 - 1) ^^^ (ec_recode_scalars_2 a b len).2.1) (len - 1) 1 b

/-! ## The state of `ec_simul` at its correction step -/

section Correction

variable {F G : Type} [AddCommGroup G] {n : Nat}

/-- The working point `X` of `ec_simul` when the main loop is left, before
`ec_cond_add(recode_bit, X, P0, X, ...)`. -/
def ec_simul_ladder (E : Ext F G) (S : Store G n) (junk : Fin n → Nat) (a : Scalar)
    (P : ecpt_affine F) (b : Scalar) (Q : ecpt_affine F) : G :=
  let (a0sign, a0, a1sign, a1) := E.gls_decompose a
  let (b0sign, b0, b1sign, b1) := E.gls_decompose b
  let P1a := gls_morph_point E P
  let Q1a := gls_morph_point E Q
  let P1 := E.ec_expand P1a
  let Q1 := E.ec_expand Q1a
  let P0 := E.ec_expand P
  let Q0 := E.ec_expand Q
  let P0 := ec_cond_neg a0sign P0
  let Q0 := ec_cond_neg b0sign Q0
  let P1 := ec_cond_neg a1sign P1
  let Q1 := ec_cond_neg b1sign Q1
  let table := ec_gen_table_4 P0 P1 Q0 Q1
  let (_, a0, a1, b0, b1) := ec_recode_scalars_4 a0 a1 b0 b1 127
  let X := ec_table_select_4 S table a0 a1 b0 b1 126 junk
  ec_simul_loop S table a0 a1 b0 b1 junk 126 X

/-- The word `recode_bit` of `ec_simul`. -/
def ec_simul_recode_bit (E : Ext F G) (a b : Scalar) : Nat :=
  let (_, a0, _, a1) := E.gls_decompose a
  let (_, b0, _, b1) := E.gls_decompose b
  (ec_recode_scalars_4 a0 a1 b0 b1 127).1

/-- The content of the variable `P0` of `ec_simul` when it is handed to
`ec_cond_add`: `ec_expand(P, P0)` followed by `ec_cond_neg(a0sign, P0)`. -/
def ec_simul_P0 (E : Ext F G) (a : Scalar) (P : ecpt_affine F) : G :=
  let (a0sign, _, _, _) := E.gls_decompose a
  let P0 := E.ec_expand P
  ec_cond_neg a0sign P0

end Correction

/-! ## The sequence of operations -/

/-- A call that `ecmul.cpp` makes, or a read of its table, as it appears in the
order of execution. `read ii` is the read of `table[ii]`, with the index that is
used; `recode len` is a call of a recoding routine with its loop bound `len`. -/
inductive Op where
  | decompose
  | morph
  | expand
  | neg
  | set
  | cond_neg
  | add
  | dbl
  | cond_add
  | affine
  | recode (len : Nat)
  | gen_mask
  | read (ii : Nat)
  | set_mask
deriving DecidableEq, Repr

/-- A value together with the operations performed to obtain it, in order. -/
structure Traced (α : Type) where
  val : α
  ops : List Op

instance : Monad Traced where
  pure a := ⟨a, []⟩
  bind x f := ⟨(f x.val).val, x.ops ++ (f x.val).ops⟩

/-- A sequence of operations repeated `m` times. -/
def repeat_ops (ops : List Op) : Nat → List Op
  | 0 => []
  | m + 1 => ops ++ repeat_ops ops m

/-- The operations of one selection: for each `ii` from 0 to 7 a mask is
generated, `table[ii]` is read and the masked entry is put into `r`; then comes
the conditional negation. -/
def select_trace : List Op :=
  [Op.gen_mask, Op.read 0, Op.set_mask, Op.gen_mask, Op.read 1, Op.set_mask,
    Op.gen_mask, Op.read 2, Op.set_mask, Op.gen_mask, Op.read 3, Op.set_mask,
    Op.gen_mask, Op.read 4, Op.set_mask, Op.gen_mask, Op.read 5, Op.set_mask,
    Op.gen_mask, Op.read 6, Op.set_mask, Op.gen_mask, Op.read 7, Op.set_mask,
    Op.cond_neg]

/-- The operations of `ec_mul` before its first selection: decomposition,
endomorphism, the two expansions with their sign adjustment, the ten calls of
`ec_gen_table_2` and the recoding. -/
def ec_mul_setup_trace : List Op :=
  [Op.decompose, Op.morph, Op.expand, Op.cond_neg, Op.expand, Op.cond_neg,
    Op.neg, Op.set, Op.add, Op.add, Op.add, Op.dbl, Op.add, Op.add, Op.add, Op.add,
    Op.recode 128]

/-- The operations of `ec_simul` before its first selection. -/
def ec_simul_setup_trace : List Op :=
  [Op.decompose, Op.decompose, Op.morph, Op.morph, Op.expand, Op.expand, Op.expand, Op.expand,
    Op.cond_neg, Op.cond_neg, Op.cond_neg, Op.cond_neg,
    Op.set, Op.add, Op.add, Op.add, Op.add, Op.add, Op.add, Op.add,
    Op.recode 127]

section Calls

variable {F G : Type} [AddCommGroup G] {n : Nat}

/-- `gls_decompose` as a recorded call. -/
def gls_decompose_call (E : Ext F G) (k : Scalar) : Traced (Int × Nat × Int × Nat) :=
  ⟨E.gls_decompose k, [Op.decompose]⟩

/-- `gls_morph` as a recorded call. -/
def gls_morph_call (E : Ext F G) (P : ecpt_affine F) : Traced (ecpt_affine F) :=
  ⟨gls_morph_point E P, [Op.morph]⟩

/-- `ec_expand` as a recorded call. -/
def ec_expand_call (E : Ext F G) (P : ecpt_affine F) : Traced G := ⟨E.ec_expand P, [Op.expand]⟩

/-- `ec_affine` as a recorded call. -/
def ec_affine_call (E : Ext F G) (X : G) : Traced (ecpt_affine F) :=
  ⟨E.ec_affine X, [Op.affine]⟩

/-- `ec_neg` as a recorded call. -/
def ec_neg_call (a : G) : Traced G := ⟨ec_neg a, [Op.neg]⟩

/-- `ec_set` as a recorded call. -/
def ec_set_call (a : G) : Traced G := ⟨ec_set a, [Op.set]⟩

/-- `ec_add` as a recorded call. -/
def ec_add_call (a b : G) : Traced G := ⟨ec_add a b, [Op.add]⟩

/-- `ec_dbl` as a recorded call. -/
def ec_dbl_call (a : G) : Traced G := ⟨ec_dbl a, [Op.dbl]⟩

/-- `ec_cond_neg` as a recorded call. -/
def ec_cond_neg_call (flag : Int) (a : G) : Traced G := ⟨ec_cond_neg flag a, [Op.cond_neg]⟩

/-- `ec_cond_add` as a recorded call. -/
def ec_cond_add_call (flag : Nat) (a b : G) : Traced G := ⟨ec_cond_add flag a b, [Op.cond_add]⟩

/-- `ec_recode_scalars_2` as a recorded call. -/
def ec_recode_scalars_2_call (a b len : Nat) : Traced (Nat × Nat × Nat) :=
  ⟨ec_recode_scalars_2 a b len, [Op.recode len]⟩

/-- `ec_recode_scalars_4` as a recorded call. -/
def ec_recode_scalars_4_call (a b c d len : Nat) : Traced (Nat × Nat × Nat × Nat × Nat) :=
  ⟨ec_recode_scalars_4 a b c d len, [Op.recode len]⟩

/-- `ec_gen_mask` as a recorded call. -/
def ec_gen_mask_call (i k : Nat) : Traced Nat := ⟨ec_gen_mask_bits i k, [Op.gen_mask]⟩

/-- The read of `table[ii]`, recorded with its index. -/
def table_read (table : Fin 8 → Fin n → Nat) (ii : Fin 8) : Traced (Fin n → Nat) :=
  ⟨table ii, [Op.read ii.val]⟩

/-- `ec_set_mask` as a recorded call. -/
def ec_set_mask_call (src : Fin n → Nat) (mask : Nat) (r : Fin n → Nat) :
    Traced (Fin n → Nat) :=
  ⟨ec_set_mask_bits src mask r, [Op.set_mask]⟩

/-- `ec_cond_neg` on stored words as a recorded call. -/
def ec_cond_neg_bits_call (neg : (Fin n → Nat) → (Fin n → Nat)) (flag : Int)
    (pt : Fin n → Nat) : Traced (Fin n → Nat) :=
  ⟨ec_cond_neg_bits neg flag pt, [Op.cond_neg]⟩

/-- One iteration of the scan, at loop index `ii`: the mask for `ii`, the read of
`table[ii]`, and the masked store into `r`. -/
def ec_table_scan_step (table : Fin 8 → Fin n → Nat) (k : Nat) (r : Fin n → Nat)
    (ii : Fin 8) : Traced (Fin n → Nat) := do
  let mask ← ec_gen_mask_call ii.val k
  let src ← table_read table ii
  ec_set_mask_call src mask r

/-- The masked scan of the selection routines, every call and table read
recorded. -/
def ec_table_scan_run (table : Fin 8 → Fin n → Nat) (k : Nat) (r : Fin n → Nat) :
    Traced (Fin n → Nat) :=
  (List.finRange 8).foldlM (ec_table_scan_step table k) r

/-- Source `ec_table_select_2` on stored words, every call recorded. -/
def ec_table_select_2_bits_run (neg : (Fin n → Nat) → (Fin n → Nat))
    (table : Fin 8 → Fin n → Nat) (a b : Nat) (index : Nat) (r : Fin n → Nat) :
    Traced (Fin n → Nat) := do
  let bits := (a >>> index) % U32
  let k := (((bits ^^^ (bits >>> 1)) &&& 1) <<< 2) % U32
  let k := k ||| (((b >>> index) % U32) &&& 3)
  let r ← ec_table_scan_run table k r
  ec_cond_neg_bits_call neg ((((bits >>> 1) &&& 1) ^^^ 1 : Nat) : Int) r

/-- Source `ec_table_select_4` on stored words, every call recorded. -/
def ec_table_select_4_bits_run (neg : (Fin n → Nat) → (Fin n → Nat))
    (table : Fin 8 → Fin n → Nat) (a b c d : Nat) (index : Nat) (r : Fin n → Nat) :
    Traced (Fin n → Nat) := do
  let k := ((b >>> index) % U32) &&& 1
  let k := k ||| (((((c >>> index) % U32) &&& 1) <<< 1) % U32)
  let k := k ||| (((((d >>> index) % U32) &&& 1) <<< 2) % U32)
  let r ← ec_table_scan_run table k r
  ec_cond_neg_bits_call neg ((((a >>> index) &&& 1) ^^^ 1 : Nat) : Int) r

/-- `ec_table_select_2` as its callers see it, every call recorded. -/
def ec_table_select_2_run (S : Store G n) (table : Fin 8 → G) (a b : Nat) (index : Nat)
    (r : Fin n → Nat) : Traced G := do
  let w ← ec_table_select_2_bits_run (neg_words S) (fun ii => S.store (table ii)) a b index r
  pure (S.load w)

/-- `ec_table_select_4` as its callers see it, every call recorded. -/
def ec_table_select_4_run (S : Store G n) (table : Fin 8 → G) (a b c d : Nat) (index : Nat)
    (r : Fin n → Nat) : Traced G := do
  let w ← ec_table_select_4_bits_run (neg_words S) (fun ii => S.store (table ii)) a b c d
    index r
  pure (S.load w)

/-- Source `ec_gen_table_2`, every call recorded. -/
def ec_gen_table_2_run (a b : G) : Traced (Fin 8 → G) := do
  let bn ← ec_neg_call b
  let t4 ← ec_set_call a
  let t5 ← ec_add_call a bn
  let t7 ← ec_add_call a b
  let t6 ← ec_add_call t7 b
  let a2 ← ec_dbl_call a
  let t0 ← ec_add_call a2 a
  let t1 ← ec_add_call t0 b
  let t2 ← ec_add_call t1 b
  let t3 ← ec_add_call t2 b
  pure ![t0, t1, t2, t3, t4, t5, t6, t7]

/-- Source `ec_gen_table_4`, every call recorded. -/
def ec_gen_table_4_run (a b c d : G) : Traced (Fin 8 → G) := do
  let t0 ← ec_set_call a
  let t1 ← ec_add_call a b
  let t2 ← ec_add_call a c
  let t3 ← ec_add_call t1 c
  let t4 ← ec_add_call a d
  let t5 ← ec_add_call t1 d
  let t6 ← ec_add_call t2 d
  let t7 ← ec_add_call t3 d
  pure ![t0, t1, t2, t3, t4, t5, t6, t7]

/-- The main loop of `ec_mul`, every call recorded; `m` iterations remain. -/
def ec_mul_loop_run (S : Store G n) (table : Fin 8 → G) (a b : Nat) (junk : Fin n → Nat) :
    Nat → G → Traced G
  | 0, X => pure X
  | m + 1, X => do
    let T ← ec_table_select_2_run S table a b (2 * m) junk
    let X ← ec_dbl_call X
    let X ← ec_dbl_call X
    let X ← ec_add_call X T
    ec_mul_loop_run S table a b junk m X

/-- Source `ec_mul`, every call recorded. -/
def ec_mul_run (E : Ext F G) (S : Store G n) (junk : Fin n → Nat) (k : Scalar)
    (P0 : ecpt_affine F) : Traced (ecpt_affine F) := do
  let dec ← gls_decompose_call E k
  let Qa ← gls_morph_call E P0
  let Q ← ec_expand_call E Qa
  let Q ← ec_cond_neg_call dec.2.2.1 Q
  let P ← ec_expand_call E P0
  let P ← ec_cond_neg_call dec.1 P
  let table ← ec_gen_table_2_run P Q
  let rec2 ← ec_recode_scalars_2_call dec.2.1 dec.2.2.2 128
  let X ← ec_table_select_2_run S table rec2.2.1 rec2.2.2 126 junk
  let X ← ec_mul_loop_run S table rec2.2.1 rec2.2.2 junk 63 X
  let X ← ec_cond_add_call rec2.1 X P
  let X ← ec_dbl_call X
  let X ← ec_dbl_call X
  ec_affine_call E X

/-- The main loop of `ec_simul`, every call recorded; `m` iterations remain. -/
def ec_simul_loop_run (S : Store G n) (table : Fin 8 → G) (a b c d : Nat)
    (junk : Fin n → Nat) : Nat → G → Traced G
  | 0, X => pure X
  | m + 1, X => do
    let T ← ec_table_select_4_run S table a b c d m junk
    let X ← ec_dbl_call X
    let X ← ec_add_call X T
    ec_simul_loop_run S table a b c d junk m X

/-- Source `ec_simul`, every call recorded. -/
def ec_simul_run (E : Ext F G) (S : Store G n) (junk : Fin n → Nat) (a : Scalar)
    (P : ecpt_affine F) (b : Scalar) (Q : ecpt_affine F) : Traced (ecpt_affine F) := do
  let da ← gls_decompose_call E a
  let db ← gls_decompose_call E b
  let P1a ← gls_morph_call E P
  let Q1a ← gls_morph_call E Q
  let P1 ← ec_expand_call E P1a
  let Q1 ← ec_expand_call E Q1a
  let P0 ← ec_expand_call E P
  let Q0 ← ec_expand_call E Q
  let P0 ← ec_cond_neg_call da.1 P0
  let Q0 ← ec_cond_neg_call db.1 Q0
  let P1 ← ec_cond_neg_call da.2.2.1 P1
  let Q1 ← ec_cond_neg_call db.2.2.1 Q1
  let table ← ec_gen_table_4_run P0 P1 Q0 Q1
  let rec4 ← ec_recode_scalars_4_call da.2.1 da.2.2.2 db.2.1 db.2.2.2 127
  let X ← ec_table_select_4_run S table rec4.2.1 rec4.2.2.1 rec4.2.2.2.1 rec4.2.2.2.2 126 junk
  let X ← ec_simul_loop_run S table rec4.2.1 rec4.2.2.1 rec4.2.2.2.1 rec4.2.2.2.2 junk 126 X
  let X ← ec_cond_add_call rec4.1 X P0
  let X ← ec_dbl_call X
  let X ← ec_dbl_call X
  ec_affine_call E X

end Calls

/-! ## Masking -/

theorem and_mask59_lt (x : Nat) : x &&& 0x07FFFFFFFFFFFFFF < 2 ^ 59 := by
  have h : (0x07FFFFFFFFFFFFFF : Nat) = 2 ^ 59 - 1 := by norm_num
  rw [h, Nat.and_pow_two_sub_one_eq_mod]
  exact Nat.mod_lt _ (by positivity)

/-- C3: after `ec_mask_scalar` a scalar of four 64-bit limbs is below `2^251`
and below the curve order `q`. -/
theorem ec_mask_scalar_range (k : Scalar) (hk : k.wf) :
    (ec_mask_scalar k).val < 2 ^ 251 ∧ (ec_mask_scalar k).val < EC_Q := by
  obtain ⟨h0, h1, h2, _⟩ := hk
  have h3 := and_mask59_lt k.k3
  have hlt : (ec_mask_scalar k).val < 2 ^ 251 := by
    simp only [ec_mask_scalar, Scalar.val]
    norm_num at h0 h1 h2 h3 ⊢
    omega
  refine ⟨hlt, lt_trans hlt ?_⟩
  norm_num [EC_Q]

/-- Witness for C3 at the all-ones scalar. -/
theorem ec_mask_scalar_range_witness :
    (ec_mask_scalar ⟨2 ^ 64 - 1, 2 ^ 64 - 1, 2 ^ 64 - 1, 2 ^ 64 - 1⟩).val < 2 ^ 251 ∧
    (ec_mask_scalar ⟨2 ^ 64 - 1, 2 ^ 64 - 1, 2 ^ 64 - 1, 2 ^ 64 - 1⟩).val < EC_Q :=
  ec_mask_scalar_range ⟨2 ^ 64 - 1, 2 ^ 64 - 1, 2 ^ 64 - 1, 2 ^ 64 - 1⟩ (by decide)

/-! ## Recoding: the returned word -/

theorem recode_lsb_eq (a : Nat) : (((a % U64) % U32) &&& 1) ^^^ 1 = 1 - a % 2 := by
  have h : a % U64 % U32 % 2 = a % 2 := by
    simp only [U64, U32]
    omega
  rw [Nat.and_one_is_mod, h]
  rcases Nat.mod_two_eq_zero_or_one a with h2 | h2 <;> simp [h2]

theorem recode_2_fst (a b len : Nat) : (ec_recode_scalars_2 a b len).1 = 1 - a % 2 := by
  simp only [ec_recode_scalars_2]
  exact recode_lsb_eq a

theorem recode_4_fst (a b c d len : Nat) :
    (ec_recode_scalars_4 a b c d len).1 = 1 - a % 2 := by
  simp only [ec_recode_scalars_4]
  exact recode_lsb_eq a

/-- C4, as the code has it: both recoding routines return the complement of the
low bit of the original `a`, that is `1 - a mod 2`, whatever `b`, `c`, `d` and
`len` are. -/
theorem ec_recode_scalars_returns_inverted_lsb (a b c d len : Nat) :
    (ec_recode_scalars_2 a b len).1 = 1 - a % 2 ∧
    (ec_recode_scalars_4 a b c d len).1 = 1 - a % 2 :=
  ⟨recode_2_fst a b len, recode_4_fst a b c d len⟩

/-- C4 as stated fails: for `a = 1`, whose low bit is 1, both routines return 0
(with `b = c = d = 0` and `len = 128`, `127`). -/
theorem ec_recode_scalars_not_lsb :
    ¬ ((ec_recode_scalars_2 1 0 128).1 = 1 % 2 ∧
       (ec_recode_scalars_4 1 0 0 0 127).1 = 1 % 2) := by
  decide

/-! ## Recoding: the sign-carrying subscalar -/

theorem sac_digit_eq (x i : Nat) : sac_digit x i = 2 * ((x / 2 ^ i % 2 : Nat) : Int) - 1 := by
  unfold sac_digit
  rw [Nat.testBit_to_div_mod]
  rcases Nat.mod_two_eq_zero_or_one (x / 2 ^ i) with h | h <;> simp [h]

theorem bit_at_eq (x i : Nat) : bit_at x i = ((x / 2 ^ i % 2 : Nat) : Int) := by
  unfold bit_at
  rw [Nat.testBit_to_div_mod]
  rcases Nat.mod_two_eq_zero_or_one (x / 2 ^ i) with h | h <;> simp [h]

theorem sac_value_succ (x n : Nat) :
    sac_value x (n + 1) = sac_value x n + sac_digit x n * 2 ^ n := by
  simp [sac_value, Finset.sum_range_succ]

theorem sac_value_mag_succ (x y n : Nat) :
    sac_value_mag x y (n + 1) = sac_value_mag x y n + sac_digit x n * bit_at y n * 2 ^ n := by
  simp [sac_value_mag, Finset.sum_range_succ]

/-- Closed form of the signed-digit value: `len` digits `2 bit - 1` sum to twice
the low `len` bits minus `2^len - 1`. -/
theorem sac_value_closed (x len : Nat) :
    sac_value x len = 2 * ((x % 2 ^ len : Nat) : Int) - (2 ^ len - 1) := by
  induction len with
  | zero => simp [sac_value, Nat.mod_one]
  | succ n ih =>
    rw [sac_value_succ, ih, sac_digit_eq, Nat.mod_pow_succ]
    push_cast
    ring

/-- The recoded `a` in closed form, for `1 ≤ a < 2^len` and `1 ≤ len ≤ 128`. -/
theorem recode_a_closed (a len : Nat) (h1 : 1 ≤ len) (h128 : len ≤ 128)
    (ha1 : 1 ≤ a) (ha : a < 2 ^ len) :
    (((a + U128 - (1 - a % 2)) % U128) >>> 1) ||| ((1 <<< (len - 1)) % U128)
      = (a - (1 - a % 2)) / 2 + 2 ^ (len - 1) := by
  have hp : 2 ^ len = 2 * 2 ^ (len - 1) := by
    rw [← pow_succ']
    congr 1
    omega
  have hU : 2 ^ len ≤ U128 := Nat.pow_le_pow_right (by norm_num) h128
  have hpU : 2 ^ (len - 1) < U128 := by
    have : 0 < 2 ^ (len - 1) := by positivity
    omega
  have e1 : (a + U128 - (1 - a % 2)) % U128 = a - (1 - a % 2) := by
    have : a + U128 - (1 - a % 2) = (a - (1 - a % 2)) + U128 := by omega
    rw [this, Nat.add_mod_right, Nat.mod_eq_of_lt]
    omega
  have e2 : (1 <<< (len - 1)) % U128 = 2 ^ (len - 1) := by
    rw [Nat.one_shiftLeft, Nat.mod_eq_of_lt hpU]
  have e3 : (a - (1 - a % 2)) / 2 < 2 ^ (len - 1) := by omega
  rw [e1, e2, Nat.shiftRight_eq_div_pow, pow_one, Nat.lor_comm, Nat.add_comm]
  have := Nat.mul_add_lt_is_or e3 1
  simpa using this.symm

theorem recode_2_snd (a b len : Nat) (h1 : 1 ≤ len) (h128 : len ≤ 128)
    (ha1 : 1 ≤ a) (ha : a < 2 ^ len) :
    (ec_recode_scalars_2 a b len).2.1 = (a - (1 - a % 2)) / 2 + 2 ^ (len - 1) := by
  simp only [ec_recode_scalars_2]
  rw [recode_lsb_eq]
  exact recode_a_closed a len h1 h128 ha1 ha

/-- Value of the digits of `(a - lsb) / 2 + 2^(len-1)`: the original `a` less the
returned word. -/
theorem sac_value_recoded (a len : Nat) (h1 : 1 ≤ len) (ha1 : 1 ≤ a) (ha : a < 2 ^ len) :
    sac_value ((a - (1 - a % 2)) / 2 + 2 ^ (len - 1)) len + ((1 - a % 2 : Nat) : Int) = a := by
  have hp : 2 ^ len = 2 * 2 ^ (len - 1) := by
    rw [← pow_succ']
    congr 1
    omega
  have hlt : (a - (1 - a % 2)) / 2 + 2 ^ (len - 1) < 2 ^ len := by omega
  rw [sac_value_closed, Nat.mod_eq_of_lt hlt]
  have hpz : ((2 : Int) ^ len) = 2 * 2 ^ (len - 1) := by exact_mod_cast hp
  rw [hpz]
  push_cast
  generalize (2 : Int) ^ (len - 1) = p
  omega

/-- C5: for `1 ≤ len ≤ 128` and `1 ≤ a < 2^len`, the signed digits of the
recoded `a` (bit 1 read as `+1`, bit 0 as `-1`, weights `2^i` for `i < len`)
plus the word returned by `ec_recode_scalars_2` give back the original `a`. -/
theorem ec_recode_scalars_2_sign_value (a b len : Nat) (h1 : 1 ≤ len) (h128 : len ≤ 128)
    (ha1 : 1 ≤ a) (ha : a < 2 ^ len) :
    (∑ i in Finset.range len,
        (if (ec_recode_scalars_2 a b len).2.1.testBit i then (1 : Int) else -1) * 2 ^ i)
      + ((ec_recode_scalars_2 a b len).1 : Int) = a := by
  have h := sac_value_recoded a len h1 ha1 ha
  rw [recode_2_snd a b len h1 h128 ha1 ha, recode_2_fst]
  simpa [sac_value, sac_digit] using h

/-- Witness for C5 at `a = 6`, `b = 5`, `len = 128`. -/
theorem ec_recode_scalars_2_sign_value_witness :
    (∑ i in Finset.range 128,
        (if (ec_recode_scalars_2 6 5 128).2.1.testBit i then (1 : Int) else -1) * 2 ^ i)
      + ((ec_recode_scalars_2 6 5 128).1 : Int) = (6 : Nat) :=
  ec_recode_scalars_2_sign_value 6 5 128 (by decide) (by decide) (by decide) (by decide)

/-! ## Recoding: the magnitude subscalars -/

theorem and_anmask (b a3 j : Nat) (hj : j < 128) :
    b &&& (((U128 - 1) ^^^ a3) &&& 2 ^ j)
      = if b.testBit j && !a3.testBit j then 2 ^ j else 0 := by
  apply Nat.eq_of_testBit_eq
  intro i
  simp only [Nat.testBit_and, Nat.testBit_xor, U128, Nat.testBit_two_pow_sub_one,
    Nat.testBit_two_pow]
  by_cases hij : j = i
  · subst hij
    by_cases hb : b.testBit j <;> by_cases ha : a3.testBit j <;>
      simp [hb, ha, hj, Nat.testBit_two_pow]
  · split <;> simp [hij, Nat.testBit_two_pow]

theorem testBit_low (q r j i : Nat) (hr : r < 2 ^ j) (hi : i < j) :
    (q * 2 ^ j + r).testBit i = r.testBit i := by
  rw [Nat.mul_comm, Nat.testBit_mul_pow_two_add q hr i]
  simp [hi]

theorem testBit_high (q r j : Nat) (hr : r < 2 ^ j) :
    (q * 2 ^ j + r).testBit j = decide (q % 2 = 1) := by
  rw [Nat.mul_comm, Nat.testBit_mul_pow_two_add q hr j]
  simp

theorem sac_value_mag_low (a3 q r j : Nat) (hr : r < 2 ^ j) :
    sac_value_mag a3 (q * 2 ^ j + r) j = sac_value_mag a3 r j := by
  unfold sac_value_mag
  apply Finset.sum_congr rfl
  intro i hi
  have hi2 := Finset.mem_range.mp hi
  simp only [bit_at, testBit_low q r j i hr hi2]

/-- The loop body at bit position `j` when the sum does not leave 128 bits. -/
theorem recode_body_eq (a3 b j : Nat) (hj : j + 1 < 128)
    (hb : b + (if b.testBit j && !a3.testBit j then 2 ^ (j + 1) else 0) < U128) :
    (b + ((b &&& (((U128 - 1) ^^^ a3) &&& 2 ^ j)) <<< 1) % U128) % U128
      = b + (if b.testBit j && !a3.testBit j then 2 ^ (j + 1) else 0) := by
  have hp : 2 ^ (j + 1) < U128 := Nat.pow_lt_pow_right (by norm_num) hj
  rw [and_anmask b a3 j (by omega)]
  split
  · rename_i h
    rw [if_pos h] at hb
    rw [Nat.shiftLeft_eq, ← pow_succ, Nat.mod_eq_of_lt hp, Nat.mod_eq_of_lt hb]
  · rename_i h
    rw [if_neg h] at hb
    simpa using Nat.mod_eq_of_lt hb

theorem mask_shift (j : Nat) (hj : j + 1 < 128) : (2 ^ j <<< 1) % U128 = 2 ^ (j + 1) := by
  rw [Nat.shiftLeft_eq, ← pow_succ]
  exact Nat.mod_eq_of_lt (Nat.pow_lt_pow_right (by norm_num) hj)

/-- Invariant of the sign-propagation loop. Write the running `b` as
`q * 2^j + r` with `r` the bits already visited; `n` iterations remain and
`j + n = m = len - 1`. If `q ≤ 2^n` the loop ends with a value `q1 * 2^m + r1`,
`q1 ≤ 1`, that denotes the same integer under the signs of `a3`. -/
theorem recode_loop_2_inv (a3 m : Nat) (hm : m < 128) :
    ∀ n j q r, j + n = m → r < 2 ^ j → q ≤ 2 ^ n →
      ∃ q1 r1, recode_loop_2 ((U128 - 1) ^^^ a3) n (q * 2 ^ j + r) (2 ^ j) = q1 * 2 ^ m + r1 ∧
        r1 < 2 ^ m ∧ q1 ≤ 1 ∧
        sac_value_mag a3 r1 m + ((q1 * 2 ^ m : Nat) : Int)
          = sac_value_mag a3 r j + ((q * 2 ^ j : Nat) : Int) := by
  intro n
  induction n with
  | zero =>
    intro j q r hj hr hq
    have hjm : j = m := by omega
    subst hjm
    exact ⟨q, r, rfl, hr, by simpa using hq, rfl⟩
  | succ n ih =>
    intro j q r hj hr hq
    have hq2 := Nat.div_add_mod q 2
    have hc : q % 2 = 0 ∨ q % 2 = 1 := Nat.mod_two_eq_zero_or_one q
    have hpn : 2 ^ (n + 1) = 2 * 2 ^ n := pow_succ' 2 n
    have hpj : 2 ^ (j + 1) = 2 * 2 ^ j := pow_succ' 2 j
    have hpm : 2 ^ n * 2 ^ (j + 1) = 2 ^ m := by
      rw [← pow_add]
      congr 1
      omega
    have hjm : 2 ^ (j + 1) ≤ 2 ^ m := Nat.pow_le_pow_right (by norm_num) (by omega)
    have hm127 : 2 ^ m ≤ 2 ^ 127 := Nat.pow_le_pow_right (by norm_num) (by omega)
    have hbit : (q * 2 ^ j + r).testBit j = decide (q % 2 = 1) := testBit_high q r j hr
    -- the carry added to the quotient
    obtain ⟨e, he, hstep, hval⟩ : ∃ e : Nat, q / 2 + e ≤ 2 ^ n ∧
        q * 2 ^ j + r + (if (q * 2 ^ j + r).testBit j && !a3.testBit j then 2 ^ (j + 1) else 0)
          = (q / 2 + e) * 2 ^ (j + 1) + (q % 2 * 2 ^ j + r) ∧
        sac_digit a3 j * bit_at (q % 2 * 2 ^ j + r) j + 2 * (e : Int) = ((q % 2 : Nat) : Int) := by
      have hbit2 : (q % 2 * 2 ^ j + r).testBit j = decide (q % 2 = 1) := by
        rw [testBit_high _ r j hr]
        simp
      have hba : bit_at (q % 2 * 2 ^ j + r) j = ((q % 2 : Nat) : Int) := by
        unfold bit_at
        rw [hbit2]
        rcases hc with h | h <;> simp [h]
      have hdecomp : q * 2 ^ j = q / 2 * 2 ^ (j + 1) + q % 2 * 2 ^ j := by
        rw [hpj]
        nth_rewrite 1 [← hq2]
        ring
      rw [hbit, hdecomp, hba]
      rcases hc with h0 | h1
      · refine ⟨0, by omega, ?_, ?_⟩
        · simp [h0]
        · simp [h0]
      · by_cases ha : a3.testBit j
        · refine ⟨0, by omega, ?_, ?_⟩
          · simp [h1, ha]
            ring
          · simp [sac_digit, h1, ha]
        · refine ⟨1, by omega, ?_, ?_⟩
          · simp [h1, ha]
            ring
          · simp [sac_digit, h1, ha]
    have hr1 : q % 2 * 2 ^ j + r < 2 ^ (j + 1) := by
      rcases hc with h0 | h1
      · rw [h0]
        omega
      · rw [h1]
        omega
    have hnowrap : (q / 2 + e) * 2 ^ (j + 1) + (q % 2 * 2 ^ j + r) < U128 := by
      have h1 : (q / 2 + e) * 2 ^ (j + 1) ≤ 2 ^ n * 2 ^ (j + 1) := Nat.mul_le_mul_right _ he
      have hU : U128 = 2 * 2 ^ 127 := by norm_num [U128]
      omega
    simp only [recode_loop_2]
    rw [mask_shift j (by omega), recode_body_eq a3 _ j (by omega) (by rw [hstep]; exact hnowrap),
      hstep]
    obtain ⟨q1, r1, h1, h2, h3, h4⟩ := ih (j + 1) (q / 2 + e) (q % 2 * 2 ^ j + r) (by omega) hr1 he
    refine ⟨q1, r1, h1, h2, h3, ?_⟩
    rw [h4, sac_value_mag_succ]
    have hlow : sac_value_mag a3 (q % 2 * 2 ^ j + r) j = sac_value_mag a3 r j :=
      sac_value_mag_low a3 (q % 2) r j hr
    rw [hlow]
    have hqz : ((q * 2 ^ j : Nat) : Int) = (2 * ((q / 2 : Nat) : Int) + ((q % 2 : Nat) : Int)) * 2 ^ j := by
      nth_rewrite 1 [← hq2]
      push_cast
      ring
    rw [hqz, ← hval]
    push_cast
    ring

/-- Bit `len - 1` of the recoded `a` is set, for every input `a`. -/
theorem recode_a_top (a2 len : Nat) (h1 : 1 ≤ len) (h128 : len ≤ 128) :
    (a2 ||| ((1 <<< (len - 1)) % U128)).testBit (len - 1) = true := by
  have hpU : 2 ^ (len - 1) < U128 := Nat.pow_lt_pow_right (by norm_num) (by omega)
  rw [Nat.one_shiftLeft, Nat.mod_eq_of_lt hpU, Nat.testBit_or, Nat.testBit_two_pow_self]
  simp

/-- What the loop leaves in `b`, for any sign carrier `a3` whose bit `len - 1`
is set: a value below `2^len` whose signed bits denote the original `b`. -/
theorem recode_loop_2_value (a3 b len : Nat) (h1 : 1 ≤ len) (h128 : len ≤ 128)
    (hb : b < 2 ^ (len - 1)) (htop : a3.testBit (len - 1) = true) :
    recode_loop_2 ((U128 - 1) ^^^ a3) (len - 1) b 1 < 2 ^ len ∧
    sac_value_mag a3 (recode_loop_2 ((U128 - 1) ^^^ a3) (len - 1) b 1) len = b := by
  obtain ⟨q1, r1, h, hr1, hq1, hv⟩ :=
    recode_loop_2_inv a3 (len - 1) (by omega) (len - 1) 0 b 0 (by omega) (by norm_num)
      (le_of_lt hb)
  simp only [pow_zero, mul_one, add_zero] at h hv
  have hp : 2 ^ len = 2 * 2 ^ (len - 1) := by
    rw [← pow_succ']
    congr 1
    omega
  have hq : q1 = 0 ∨ q1 = 1 := by omega
  have hlen : len = (len - 1) + 1 := by omega
  rw [h]
  constructor
  · rcases hq with h0 | h0 <;> rw [h0] <;> omega
  · rw [hlen, sac_value_mag_succ, Nat.add_sub_cancel, sac_value_mag_low a3 q1 r1 _ hr1]
    have hbit : bit_at (q1 * 2 ^ (len - 1) + r1) (len - 1) = (q1 : Int) := by
      unfold bit_at
      rw [testBit_high q1 r1 _ hr1]
      rcases hq with h0 | h0 <;> simp [h0]
    have hs : sac_digit a3 (len - 1) = 1 := by simp [sac_digit, htop]
    rw [hbit, hs]
    have hv2 : sac_value_mag a3 r1 (len - 1) + (q1 : Int) * 2 ^ (len - 1) = b := by
      have : sac_value_mag a3 0 0 = 0 := by simp [sac_value_mag]
      rw [this] at hv
      push_cast at hv
      linarith
    linarith

theorem recode_2_snd_def (a b len : Nat) :
    (ec_recode_scalars_2 a b len).2.2
      = recode_loop_2 ((U128 - 1) ^^^ (ec_recode_scalars_2 a b len).2.1) (len - 1) b 1 := rfl

theorem recode_2_top (a b len : Nat) (h1 : 1 ≤ len) (h128 : len ≤ 128) :
    (ec_recode_scalars_2 a b len).2.1.testBit (len - 1) = true := by
  simp only [ec_recode_scalars_2]
  exact recode_a_top _ len h1 h128

/-- The magnitude half of the recoding, on the model's digit functions. -/
theorem recode_2_mag (a b len : Nat) (h1 : 1 ≤ len) (h128 : len ≤ 128)
    (hb : b < 2 ^ (len - 1)) :
    (ec_recode_scalars_2 a b len).2.2 < 2 ^ len ∧
    sac_value_mag (ec_recode_scalars_2 a b len).2.1 (ec_recode_scalars_2 a b len).2.2 len = b := by
  rw [recode_2_snd_def]
  exact recode_loop_2_value _ b len h1 h128 hb (recode_2_top a b len h1 h128)

/-- C6: for `1 ≤ len ≤ 128`, `1 ≤ a < 2^len` and `b < 2^(len-1)`, the `b` left by
`ec_recode_scalars_2` is below `2^len`, and its bits, each taken with the sign
read off the same bit of the recoded `a`, sum with weights `2^i` to the
original `b`. -/
theorem ec_recode_scalars_2_mag_value (a b len : Nat) (h1 : 1 ≤ len) (h128 : len ≤ 128)
    (_ha1 : 1 ≤ a) (_ha : a < 2 ^ len) (hb : b < 2 ^ (len - 1)) :
    (ec_recode_scalars_2 a b len).2.2 < 2 ^ len ∧
    (∑ i in Finset.range len,
        (if (ec_recode_scalars_2 a b len).2.1.testBit i then (1 : Int) else -1)
          * (if (ec_recode_scalars_2 a b len).2.2.testBit i then (1 : Int) else 0) * 2 ^ i)
      = b :=
  recode_2_mag a b len h1 h128 hb

/-- Witness for C6 at `a = 6`, `b = 5`, `len = 8`, where the recoded pair is
`(130, 255)`. -/
theorem ec_recode_scalars_2_mag_value_witness :
    (ec_recode_scalars_2 6 5 8).2.2 < 2 ^ 8 ∧
    (∑ i in Finset.range 8,
        (if (ec_recode_scalars_2 6 5 8).2.1.testBit i then (1 : Int) else -1)
          * (if (ec_recode_scalars_2 6 5 8).2.2.testBit i then (1 : Int) else 0) * 2 ^ i)
      = (5 : Nat) :=
  ec_recode_scalars_2_mag_value 6 5 8 (by decide) (by decide) (by decide) (by decide)
    (by decide)

/-! ## Precomputed tables -/

section Tables

variable {G : Type} [AddCommGroup G]

theorem gen_table_2_unfold (A B : G) : ec_gen_table_2 A B =
    ![A + A + A, A + A + A + B, A + A + A + B + B, A + A + A + B + B + B, A, A + -B,
      A + B + B, A + B] := rfl

theorem gen_table_4_unfold (A B C D : G) : ec_gen_table_4 A B C D =
    ![A, A + B, A + C, A + B + C, A + D, A + B + D, A + C + D, A + B + C + D] := rfl

theorem gen_table_2_entries (A B : G) :
    ec_gen_table_2 A B 0 = 3 • A ∧
    ec_gen_table_2 A B 1 = 3 • A + B ∧
    ec_gen_table_2 A B 2 = 3 • A + 2 • B ∧
    ec_gen_table_2 A B 3 = 3 • A + 3 • B ∧
    ec_gen_table_2 A B 4 = A ∧
    ec_gen_table_2 A B 5 = A - B ∧
    ec_gen_table_2 A B 6 = A + 2 • B ∧
    ec_gen_table_2 A B 7 = A + B := by
  rw [gen_table_2_unfold]
  refine ⟨?_, ?_, ?_, ?_, ?_, ?_, ?_, ?_⟩
  · show A + A + A = _
    abel
  · show A + A + A + B = _
    abel
  · show A + A + A + B + B = _
    abel
  · show A + A + A + B + B + B = _
    abel
  · rfl
  · show A + -B = _
    abel
  · show A + B + B = _
    abel
  · rfl

theorem gen_table_4_entries (A B C D : G) (i : Fin 8) :
    ec_gen_table_4 A B C D i
      = A + (if i.val.testBit 0 then B else 0) + (if i.val.testBit 1 then C else 0)
          + (if i.val.testBit 2 then D else 0) := by
  have h0 : ∀ n : Nat, n.testBit 0 = decide (n % 2 = 1) := Nat.testBit_zero
  have h1 : ∀ n : Nat, n.testBit 1 = decide (n / 2 % 2 = 1) := fun n => by
    rw [Nat.testBit_succ, Nat.testBit_zero]
  have h2 : ∀ n : Nat, n.testBit 2 = decide (n / 2 / 2 % 2 = 1) := fun n => by
    rw [Nat.testBit_succ, Nat.testBit_succ, Nat.testBit_zero]
  rw [gen_table_4_unfold, h0, h1, h2]
  fin_cases i
  · show A = _
    simp
  · show A + B = _
    simp
  · show A + C = _
    simp
  · show A + B + C = _
    simp
  · show A + D = _
    simp
  · show A + B + D = _
    simp
  · show A + C + D = _
    simp
  · show A + B + C + D = _
    simp

/-- C7: `ec_gen_table_2(A, B)` fills the table with `3A`, `3A + B`, `3A + 2B`,
`3A + 3B`, `A`, `A - B`, `A + 2B`, `A + B` at indices 0 to 7. -/
theorem ec_gen_table_2_contents (A B : G) :
    ec_gen_table_2 A B 0 = 3 • A ∧
    ec_gen_table_2 A B 1 = 3 • A + B ∧
    ec_gen_table_2 A B 2 = 3 • A + 2 • B ∧
    ec_gen_table_2 A B 3 = 3 • A + 3 • B ∧
    ec_gen_table_2 A B 4 = A ∧
    ec_gen_table_2 A B 5 = A - B ∧
    ec_gen_table_2 A B 6 = A + 2 • B ∧
    ec_gen_table_2 A B 7 = A + B :=
  gen_table_2_entries A B

/-- C8: `ec_gen_table_4(A, B, C, D)` sets entry `i`, for every index `i` in
0..7, to `A` plus `B` if bit 0 of `i` is set, plus `C` if bit 1 is set, plus `D`
if bit 2 is set. -/
theorem ec_gen_table_4_contents (A B C D : G) (i : Fin 8) :
    ec_gen_table_4 A B C D i
      = A + (if i.val.testBit 0 then B else 0) + (if i.val.testBit 1 then C else 0)
          + (if i.val.testBit 2 then D else 0) :=
  gen_table_4_entries A B C D i

end Tables

/-! ## Table selection -/

section Selection

variable {G : Type}

theorem finRange_eight : List.finRange 8 = [0, 1, 2, 3, 4, 5, 6, 7] := by decide

theorem xor_and_one (u v : Nat) : (u ^^^ v) &&& 1 = (u % 2 + v % 2) % 2 := by
  rw [Nat.and_one_is_mod]
  have h := @Nat.xor_mod_two_eq_one u v
  rcases Nat.mod_two_eq_zero_or_one (u ^^^ v) with hx | hx <;>
    rcases Nat.mod_two_eq_zero_or_one u with hu | hu <;>
    rcases Nat.mod_two_eq_zero_or_one v with hv | hv <;>
    simp_all

/-- The table index of `ec_table_select_2` in arithmetic form, with `x` and `y`
the two subscalars shifted right by the window position. -/
theorem select_2_index (x y : Nat) :
    (((((x % U32) ^^^ ((x % U32) >>> 1)) &&& 1) <<< 2) % U32) ||| ((y % U32) &&& 3)
      = 4 * ((x % 2 + x / 2 % 2) % 2) + y % 4 := by
  have h3 : (3 : Nat) = 2 ^ 2 - 1 := by norm_num
  rw [xor_and_one, Nat.shiftRight_eq_div_pow, Nat.shiftLeft_eq, h3,
    Nat.and_pow_two_sub_one_eq_mod]
  have e1 : x % U32 % 2 = x % 2 := by simp only [U32]; omega
  have e2 : x % U32 / 2 ^ 1 % 2 = x / 2 % 2 := by simp only [U32]; omega
  have e3 : y % U32 % 2 ^ 2 = y % 4 := by simp only [U32]; omega
  rw [e1, e2, e3]
  have e4 : (x % 2 + x / 2 % 2) % 2 * 2 ^ 2 % U32 = 2 ^ 2 * ((x % 2 + x / 2 % 2) % 2) := by
    simp only [U32]; omega
  rw [e4]
  have hy : y % 4 < 2 ^ 2 := by omega
  rw [← Nat.mul_add_lt_is_or hy]

/-- The negation flag of `ec_table_select_2` in arithmetic form. -/
theorem select_2_flag (x : Nat) :
    ((((x % U32) >>> 1) &&& 1) ^^^ 1) = 1 - x / 2 % 2 := by
  rw [Nat.and_one_is_mod, Nat.shiftRight_eq_div_pow]
  have e2 : x % U32 / 2 ^ 1 % 2 = x / 2 % 2 := by simp only [U32]; omega
  rw [e2]
  rcases Nat.mod_two_eq_zero_or_one (x / 2) with h | h <;> simp [h]

end Selection

theorem div_pow_succ_mod (a i : Nat) : a / 2 ^ (i + 1) % 2 = a / 2 ^ i / 2 % 2 := by
  rw [Nat.div_div_eq_div_mul, ← pow_succ]

/-! ## Recoding and index arithmetic for m=4 -/

/-- The loop of `ec_recode_scalars_4` is the loop of `ec_recode_scalars_2` run on
each of `b`, `c`, `d`. -/
theorem recode_loop_4_eq (an : Nat) :
    ∀ n b c d mask, recode_loop_4 an n b c d mask
      = (recode_loop_2 an n b mask, recode_loop_2 an n c mask, recode_loop_2 an n d mask) := by
  intro n
  induction n with
  | zero =>
    intro b c d mask
    rfl
  | succ n ih =>
    intro b c d mask
    simp only [recode_loop_4, recode_loop_2]
    rw [ih]

theorem recode_4_a (a b c d len : Nat) :
    (ec_recode_scalars_4 a b c d len).2.1 = (ec_recode_scalars_2 a b len).2.1 := rfl

theorem recode_4_b (a b c d len : Nat) :
    (ec_recode_scalars_4 a b c d len).2.2.1 = (ec_recode_scalars_2 a b len).2.2 := by
  simp only [ec_recode_scalars_4, ec_recode_scalars_2, recode_loop_4_eq]

theorem recode_4_c (a b c d len : Nat) :
    (ec_recode_scalars_4 a b c d len).2.2.2.1 = (ec_recode_scalars_2 a c len).2.2 := by
  simp only [ec_recode_scalars_4, ec_recode_scalars_2, recode_loop_4_eq]

theorem recode_4_d (a b c d len : Nat) :
    (ec_recode_scalars_4 a b c d len).2.2.2.2 = (ec_recode_scalars_2 a d len).2.2 := by
  simp only [ec_recode_scalars_4, ec_recode_scalars_2, recode_loop_4_eq]

/-- The recoded `a` does not depend on the second subscalar. -/
theorem recode_2_a_indep (a b c len : Nat) :
    (ec_recode_scalars_2 a b len).2.1 = (ec_recode_scalars_2 a c len).2.1 := rfl

/-- The table index of `ec_table_select_4` in arithmetic form. -/
theorem select_4_index (yb yc yd : Nat) :
    (((yb % U32) &&& 1) ||| ((((yc % U32) &&& 1) <<< 1) % U32))
        ||| ((((yd % U32) &&& 1) <<< 2) % U32)
      = yb % 2 + 2 * (yc % 2) + 4 * (yd % 2) := by
  rw [Nat.and_one_is_mod, Nat.and_one_is_mod, Nat.and_one_is_mod, Nat.shiftLeft_eq,
    Nat.shiftLeft_eq]
  have e1 : yb % U32 % 2 = yb % 2 := by simp only [U32]; omega
  have e2 : yc % U32 % 2 * 2 ^ 1 % U32 = 2 ^ 1 * (yc % 2) := by simp only [U32]; omega
  have e3 : yd % U32 % 2 * 2 ^ 2 % U32 = 2 ^ 2 * (yd % 2) := by simp only [U32]; omega
  rw [e1, e2, e3]
  have h1 : yb % 2 < 2 ^ 1 := by omega
  rw [Nat.lor_comm (yb % 2), ← Nat.mul_add_lt_is_or h1]
  have h2 : 2 ^ 1 * (yc % 2) + yb % 2 < 2 ^ 2 := by omega
  rw [Nat.lor_comm, ← Nat.mul_add_lt_is_or h2]
  omega

/-- The negation flag of `ec_table_select_4` in arithmetic form. -/
theorem select_4_flag (x : Nat) : ((x &&& 1) ^^^ 1) = 1 - x % 2 := by
  rw [Nat.and_one_is_mod]
  rcases Nat.mod_two_eq_zero_or_one x with h | h <;> simp [h]

/-! ## Masking as a reduction -/

theorem and_mask59_eq (x : Nat) : x &&& 0x07FFFFFFFFFFFFFF = x % 2 ^ 59 := by
  have h : (0x07FFFFFFFFFFFFFF : Nat) = 2 ^ 59 - 1 := by norm_num
  rw [h, Nat.and_pow_two_sub_one_eq_mod]

/-- C11: for a scalar of four 64-bit limbs, `ec_mask_scalar` leaves `k[0]`,
`k[1]`, `k[2]` as they are and keeps the low 59 bits of `k[3]`, so the value
becomes `k mod 2^251`; masking twice is masking once, and a scalar below `2^251`
is left unchanged. -/
theorem ec_mask_scalar_mod (k : Scalar) (hk : k.wf) :
    (ec_mask_scalar k).k0 = k.k0 ∧ (ec_mask_scalar k).k1 = k.k1 ∧
    (ec_mask_scalar k).k2 = k.k2 ∧ (ec_mask_scalar k).k3 = k.k3 % 2 ^ 59 ∧
    (ec_mask_scalar k).val = k.val % 2 ^ 251 ∧
    ec_mask_scalar (ec_mask_scalar k) = ec_mask_scalar k ∧
    (k.val < 2 ^ 251 → ec_mask_scalar k = k) := by
  obtain ⟨h0, h1, h2, h3⟩ := hk
  obtain ⟨k0, k1, k2, k3⟩ := k
  simp only [ec_mask_scalar, Scalar.val, and_mask59_eq] at *
  refine ⟨trivial, trivial, trivial, trivial, ?_, ?_, ?_⟩
  · norm_num at h0 h1 h2 h3 ⊢
    omega
  · rw [Nat.mod_mod]
  · intro hlt
    have : k3 % 2 ^ 59 = k3 := by
      norm_num at h0 h1 h2 h3 hlt ⊢
      omega
    rw [this]

/-- Witness for C11 at the all-ones scalar. -/
theorem ec_mask_scalar_mod_witness :
    (ec_mask_scalar ⟨2 ^ 64 - 1, 2 ^ 64 - 1, 2 ^ 64 - 1, 2 ^ 64 - 1⟩).val
      = (Scalar.mk (2 ^ 64 - 1) (2 ^ 64 - 1) (2 ^ 64 - 1) (2 ^ 64 - 1)).val % 2 ^ 251 :=
  (ec_mask_scalar_mod ⟨2 ^ 64 - 1, 2 ^ 64 - 1, 2 ^ 64 - 1, 2 ^ 64 - 1⟩ (by decide)).2.2.2.2.1

/-! ## Shape of the recoded sign subscalar -/

/-- The recoded `a` lies in `[2^(len-1), 2^len)` for `len = 127` and `len = 128`,
whatever `a` is: the word after the subtraction and the shift is below `2^127`. -/
theorem recode_a_range (a b len : Nat) (h127 : 127 ≤ len) (h128 : len ≤ 128) :
    2 ^ (len - 1) ≤ (ec_recode_scalars_2 a b len).2.1 ∧
    (ec_recode_scalars_2 a b len).2.1 < 2 ^ len := by
  refine ⟨Nat.testBit_implies_ge (recode_2_top a b len (by omega) h128), ?_⟩
  simp only [ec_recode_scalars_2]
  have hpU : 2 ^ (len - 1) < U128 := Nat.pow_lt_pow_right (by norm_num) (by omega)
  have h2 : ((a + U128 - ((a % U64 % U32 &&& 1) ^^^ 1)) % U128) >>> 1 < 2 ^ 127 := by
    rw [Nat.shiftRight_eq_div_pow]
    have hlt : (a + U128 - ((a % U64 % U32 &&& 1) ^^^ 1)) % U128 < U128 :=
      Nat.mod_lt _ (by norm_num [U128])
    have hU : U128 = 2 ^ 1 * 2 ^ 127 := by norm_num [U128]
    rw [hU] at hlt
    exact Nat.div_lt_of_lt_mul hlt
  rw [Nat.one_shiftLeft, Nat.mod_eq_of_lt hpU]
  apply Nat.or_lt_two_pow
  · exact lt_of_lt_of_le h2 (Nat.pow_le_pow_right (by norm_num) h127)
  · exact Nat.pow_lt_pow_right (by norm_num) (by omega)

/-- C14: for `len = 128` and `len = 127` and every input `a`, the recoded `a` of
`ec_recode_scalars_2` and of `ec_recode_scalars_4` satisfies
`2^(len-1) ≤ a' < 2^len`, and its bit `len - 1` is set. -/
theorem ec_recode_scalars_sign_len_bits (a b c d : Nat) :
    (2 ^ 127 ≤ (ec_recode_scalars_2 a b 128).2.1 ∧ (ec_recode_scalars_2 a b 128).2.1 < 2 ^ 128 ∧
      (ec_recode_scalars_2 a b 128).2.1.testBit 127 = true) ∧
    (2 ^ 126 ≤ (ec_recode_scalars_2 a b 127).2.1 ∧ (ec_recode_scalars_2 a b 127).2.1 < 2 ^ 127 ∧
      (ec_recode_scalars_2 a b 127).2.1.testBit 126 = true) ∧
    (2 ^ 127 ≤ (ec_recode_scalars_4 a b c d 128).2.1 ∧
      (ec_recode_scalars_4 a b c d 128).2.1 < 2 ^ 128 ∧
      (ec_recode_scalars_4 a b c d 128).2.1.testBit 127 = true) ∧
    (2 ^ 126 ≤ (ec_recode_scalars_4 a b c d 127).2.1 ∧
      (ec_recode_scalars_4 a b c d 127).2.1 < 2 ^ 127 ∧
      (ec_recode_scalars_4 a b c d 127).2.1.testBit 126 = true) := by
  have r128 := recode_a_range a b 128 (by norm_num) (by norm_num)
  have r127 := recode_a_range a b 127 (by norm_num) (by norm_num)
  have t128 := recode_2_top a b 128 (by norm_num) (by norm_num)
  have t127 := recode_2_top a b 127 (by norm_num) (by norm_num)
  rw [recode_4_a, recode_4_a]
  exact ⟨⟨r128.1, r128.2, t128⟩, ⟨r127.1, r127.2, t127⟩, ⟨r128.1, r128.2, t128⟩,
    ⟨r127.1, r127.2, t127⟩⟩

/-! ## The m=4 recoding against the m=2 recoding -/

/-- C16: `ec_recode_scalars_4(a, b, c, d, len)` returns the word and leaves the
`a` that `ec_recode_scalars_2(a, x, len)` does, for any `x`, and leaves in `b`,
`c`, `d` what `ec_recode_scalars_2` leaves in its second argument on `(a, b)`,
`(a, c)` and `(a, d)`. -/
theorem ec_recode_scalars_4_componentwise (a b c d x len : Nat) :
    (ec_recode_scalars_4 a b c d len).1 = (ec_recode_scalars_2 a x len).1 ∧
    (ec_recode_scalars_4 a b c d len).2.1 = (ec_recode_scalars_2 a x len).2.1 ∧
    (ec_recode_scalars_4 a b c d len).2.2.1 = (ec_recode_scalars_2 a b len).2.2 ∧
    (ec_recode_scalars_4 a b c d len).2.2.2.1 = (ec_recode_scalars_2 a c len).2.2 ∧
    (ec_recode_scalars_4 a b c d len).2.2.2.2 = (ec_recode_scalars_2 a d len).2.2 :=
  ⟨rfl, rfl, recode_4_b a b c d len, recode_4_c a b c d len, recode_4_d a b c d len⟩

/-! ## A zero first subscalar -/

theorem recode_zero_a (b len : Nat) (h127 : 127 ≤ len) (h128 : len ≤ 128) :
    (ec_recode_scalars_2 0 b len).1 = 1 ∧ (ec_recode_scalars_2 0 b len).2.1 = 2 ^ len - 1 := by
  have hl : len = 127 ∨ len = 128 := by omega
  simp only [ec_recode_scalars_2]
  rcases hl with h | h <;> subst h <;> decide

/-- C20: for `a = 0` and `len` 127 or 128 both recoding routines return 1 and
leave `2^len - 1` in `a` (the subtraction wraps modulo `2^128`); all `len`
signed digits are `+1`, so the digit value plus the returned word is `2^len`,
not the original `a = 0`. -/
theorem ec_recode_scalars_zero_wraps (b c d : Nat) :
    ((ec_recode_scalars_2 0 b 128).1 = 1 ∧ (ec_recode_scalars_2 0 b 128).2.1 = 2 ^ 128 - 1 ∧
      sac_value (ec_recode_scalars_2 0 b 128).2.1 128 + ((ec_recode_scalars_2 0 b 128).1 : Int)
        = 2 ^ 128) ∧
    ((ec_recode_scalars_2 0 b 127).1 = 1 ∧ (ec_recode_scalars_2 0 b 127).2.1 = 2 ^ 127 - 1 ∧
      sac_value (ec_recode_scalars_2 0 b 127).2.1 127 + ((ec_recode_scalars_2 0 b 127).1 : Int)
        = 2 ^ 127) ∧
    ((ec_recode_scalars_4 0 b c d 128).1 = 1 ∧
      (ec_recode_scalars_4 0 b c d 128).2.1 = 2 ^ 128 - 1 ∧
      sac_value (ec_recode_scalars_4 0 b c d 128).2.1 128
        + ((ec_recode_scalars_4 0 b c d 128).1 : Int) = 2 ^ 128) ∧
    ((ec_recode_scalars_4 0 b c d 127).1 = 1 ∧
      (ec_recode_scalars_4 0 b c d 127).2.1 = 2 ^ 127 - 1 ∧
      sac_value (ec_recode_scalars_4 0 b c d 127).2.1 127
        + ((ec_recode_scalars_4 0 b c d 127).1 : Int) = 2 ^ 127) := by
  have h128 := recode_zero_a b 128 (by norm_num) (by norm_num)
  have h127 := recode_zero_a b 127 (by norm_num) (by norm_num)
  have v128 : sac_value (2 ^ 128 - 1) 128 + ((1 : Nat) : Int) = 2 ^ 128 := by
    rw [sac_value_closed]
    norm_num
  have v127 : sac_value (2 ^ 127 - 1) 127 + ((1 : Nat) : Int) = 2 ^ 127 := by
    rw [sac_value_closed]
    norm_num
  have f128 : (ec_recode_scalars_4 0 b c d 128).1 = 1 := by rw [recode_4_fst]
  have f127 : (ec_recode_scalars_4 0 b c d 127).1 = 1 := by rw [recode_4_fst]
  rw [recode_4_a, recode_4_a, f128, f127, h128.1, h128.2, h127.1, h127.2]
  exact ⟨⟨rfl, rfl, v128⟩, ⟨rfl, rfl, v127⟩, ⟨rfl, rfl, v128⟩, ⟨rfl, rfl, v127⟩⟩

/-! ## The index and the flag of a window -/

theorem select_2_k_eq (a b i : Nat) :
    ec_table_select_2_k a b i
      = 4 * (if (a.testBit i != a.testBit (i + 1)) then 1 else 0)
        + 2 * (if b.testBit (i + 1) then 1 else 0) + (if b.testBit i then 1 else 0) := by
  simp only [ec_table_select_2_k]
  rw [select_2_index]
  simp only [Nat.shiftRight_eq_div_pow, Nat.testBit_to_div_mod, div_pow_succ_mod]
  rcases Nat.mod_two_eq_zero_or_one (a / 2 ^ i) with h1 | h1 <;>
    rcases Nat.mod_two_eq_zero_or_one (a / 2 ^ i / 2) with h2 | h2 <;>
    rcases Nat.mod_two_eq_zero_or_one (b / 2 ^ i) with h3 | h3 <;>
    rcases Nat.mod_two_eq_zero_or_one (b / 2 ^ i / 2) with h4 | h4 <;>
    simp [h1, h2, h3, h4] <;> omega

theorem select_2_flag_eq (a i : Nat) :
    ec_table_select_2_flag a i = if a.testBit (i + 1) then 0 else 1 := by
  simp only [ec_table_select_2_flag]
  rw [select_2_flag]
  simp only [Nat.shiftRight_eq_div_pow, Nat.testBit_to_div_mod, div_pow_succ_mod]
  rcases Nat.mod_two_eq_zero_or_one (a / 2 ^ i / 2) with h2 | h2 <;> simp [h2]

theorem select_4_k_eq (b c d i : Nat) :
    ec_table_select_4_k b c d i
      = (if b.testBit i then 1 else 0) + 2 * (if c.testBit i then 1 else 0)
        + 4 * (if d.testBit i then 1 else 0) := by
  simp only [ec_table_select_4_k]
  rw [select_4_index]
  simp only [Nat.shiftRight_eq_div_pow, Nat.testBit_to_div_mod]
  rcases Nat.mod_two_eq_zero_or_one (b / 2 ^ i) with h1 | h1 <;>
    rcases Nat.mod_two_eq_zero_or_one (c / 2 ^ i) with h2 | h2 <;>
    rcases Nat.mod_two_eq_zero_or_one (d / 2 ^ i) with h3 | h3 <;>
    simp [h1, h2, h3]

theorem select_4_flag_eq (a i : Nat) :
    ec_table_select_4_flag a i = if a.testBit i then 0 else 1 := by
  simp only [ec_table_select_4_flag]
  rw [select_4_flag]
  simp only [Nat.shiftRight_eq_div_pow, Nat.testBit_to_div_mod]
  rcases Nat.mod_two_eq_zero_or_one (a / 2 ^ i) with h2 | h2 <;> simp [h2]

/-! ## Bit positions of the sign propagation -/

theorem mask_shift_mod (i : Nat) :
    (((1 <<< i) % U128) <<< 1) % U128 = (1 <<< (i + 1)) % U128 := by
  rw [Nat.one_shiftLeft, Nat.one_shiftLeft, Nat.shiftLeft_eq, pow_one, pow_succ]
  simp only [U128]
  omega

/-- The loop of the source, whose mask starts at `1 << i` and is shifted after
each pass, visits the bit positions `i`, `i + 1`, ... in turn. -/
theorem recode_loop_2_positions (an : Nat) :
    ∀ n i b, recode_loop_2 an n b ((1 <<< i) % U128) = sign_propagation an n i b := by
  intro n
  induction n with
  | zero =>
    intro i b
    rfl
  | succ n ih =>
    intro i b
    simp only [recode_loop_2, sign_propagation, sign_propagation_step]
    rw [mask_shift_mod, ih]

/-- C15, as the code has it: the `b` left by `ec_recode_scalars_2(a, b, len)` is
the original `b` after the passes `b <- b + ((b & anmask) << 1)` with
`anmask = (~a') & (1 << i)` for `i` from 0 to `len - 2` in increasing order
(`len - 1` passes, the mask starting at 1), `a'` the recoded `a`, arithmetic
modulo `2^128`. -/
theorem ec_recode_scalars_2_positions (a b len : Nat) :
    (ec_recode_scalars_2 a b len).2.2
      = sign_propagation ((U128 - 1) ^^^ (ec_recode_scalars_2 a b len).2.1) (len - 1) 0 b := by
  rw [recode_2_snd_def, ← recode_loop_2_positions]
  rfl

set_option maxRecDepth 8000 in
/-- C15 as stated fails: for `a = 1`, `b = 1`, `len = 128` the code leaves
`2^128 - 1` in `b`, while the passes at positions 1 to 127 leave `b = 1`. -/
theorem ec_recode_scalars_2_not_spec_positions :
    (ec_recode_scalars_2 1 1 128).2.2 = 2 ^ 128 - 1 ∧ spec_recode_b 1 1 128 = 1 ∧
    ¬ ((ec_recode_scalars_2 1 1 128).2.2 = spec_recode_b 1 1 128) := by
  decide

/-! ## The accumulator of the masked scan -/

section ScanBits

variable {n : Nat}

theorem and_all_ones (x : Nat) (hx : x < U128) : x &&& (U128 - 1) = x :=
  Nat.and_pow_two_sub_one_of_lt_two_pow hx

/-- On stored words the scan leaves in `r` the OR of what `r` held on entry with
entry `k` of the table: nothing in it clears `r`. -/
theorem ec_table_scan_bits_eq (table : Fin 8 → Fin n → Nat) (k : Fin 8) (r : Fin n → Nat)
    (hT : ∀ w, table k w < U128) :
    ec_table_scan_bits table k.val r = fun w => r w ||| table k w := by
  unfold ec_table_scan_bits
  rw [finRange_eight]
  have h0 : ((0 : Fin 8) : Nat) = 0 := rfl
  have h1 : ((1 : Fin 8) : Nat) = 1 := rfl
  have h2 : ((2 : Fin 8) : Nat) = 2 := rfl
  have h3 : ((3 : Fin 8) : Nat) = 3 := rfl
  have h4 : ((4 : Fin 8) : Nat) = 4 := rfl
  have h5 : ((5 : Fin 8) : Nat) = 5 := rfl
  have h6 : ((6 : Fin 8) : Nat) = 6 := rfl
  have h7 : ((7 : Fin 8) : Nat) = 7 := rfl
  funext w
  have hw := and_all_ones _ (hT w)
  fin_cases k <;>
    simp only [List.foldl_cons, List.foldl_nil, ec_set_mask_bits, ec_gen_mask_bits, h0, h1, h2,
      h3, h4, h5, h6, h7] <;> simp <;> exact congrArg (fun t => r w ||| t) hw

/-- From a zero accumulator the scan on stored words leaves exactly entry `k`. -/
theorem ec_table_scan_bits_zero (table : Fin 8 → Fin n → Nat) (k : Fin 8)
    (hT : ∀ w, table k w < U128) :
    ec_table_scan_bits table k.val (fun _ => 0) = table k := by
  rw [ec_table_scan_bits_eq table k _ hT]
  funext w
  simp

theorem select_2_k_lt (a b i : Nat) : ec_table_select_2_k a b i < 8 := by
  rw [select_2_k_eq]
  split <;> split <;> split <;> norm_num

theorem select_4_k_lt (b c d i : Nat) : ec_table_select_4_k b c d i < 8 := by
  rw [select_4_k_eq]
  split <;> split <;> split <;> norm_num

/-- What `ec_table_select_2` leaves in `r` on stored words: the entry it scans
for, OR-ed onto what `r` held on entry, then conditionally negated. -/
theorem ec_table_select_2_bits_eq (neg : (Fin n → Nat) → (Fin n → Nat))
    (table : Fin 8 → Fin n → Nat) (a b i : Nat) (r : Fin n → Nat)
    (hT : ∀ k w, table k w < U128) :
    ec_table_select_2_bits neg table a b i r
      = ec_cond_neg_bits neg ((ec_table_select_2_flag a i : Nat) : Int)
          (fun w => r w ||| table ⟨ec_table_select_2_k a b i, select_2_k_lt a b i⟩ w) := by
  rw [← ec_table_scan_bits_eq table ⟨ec_table_select_2_k a b i, select_2_k_lt a b i⟩ r (hT _)]
  rfl

/-- What `ec_table_select_4` leaves in `r` on stored words. -/
theorem ec_table_select_4_bits_eq (neg : (Fin n → Nat) → (Fin n → Nat))
    (table : Fin 8 → Fin n → Nat) (a b c d i : Nat) (r : Fin n → Nat)
    (hT : ∀ k w, table k w < U128) :
    ec_table_select_4_bits neg table a b c d i r
      = ec_cond_neg_bits neg ((ec_table_select_4_flag a i : Nat) : Int)
          (fun w => r w ||| table ⟨ec_table_select_4_k b c d i, select_4_k_lt b c d i⟩ w) := by
  rw [← ec_table_scan_bits_eq table ⟨ec_table_select_4_k b c d i, select_4_k_lt b c d i⟩ r
    (hT _)]
  rfl

/-- C17 at a failing input: one-word points, entry `k` of the table holding
`16 + k`, negation leaving the word as it is. `ec_table_select_2` with `a = 3`,
`b = 2`, `index = 0` scans for `k = 2` and does not negate; entered with `r = 1`
it returns `19 = 1 | 18`, entered with `r = 0` it returns the entry `18`.
`ec_table_select_4` with `a = 1`, `b = 0`, `c = 1`, `d = 0`, `index = 0` does the
same. -/
theorem ec_table_select_bits_keeps_prior_r :
    ec_table_select_2_k 3 2 0 = 2 ∧ ec_table_select_2_flag 3 0 = 0 ∧
    ec_table_select_2_bits id (fun k _ => 16 + k.val) 3 2 0 (fun _ : Fin 1 => 1) 0 = 19 ∧
    ec_table_select_2_bits id (fun k _ => 16 + k.val) 3 2 0 (fun _ : Fin 1 => 0) 0 = 18 ∧
    ec_table_select_4_k 0 1 0 0 = 2 ∧ ec_table_select_4_flag 1 0 = 0 ∧
    ec_table_select_4_bits id (fun k _ => 16 + k.val) 1 0 1 0 0 (fun _ : Fin 1 => 1) 0 = 19 ∧
    ec_table_select_4_bits id (fun k _ => 16 + k.val) 1 0 1 0 0 (fun _ : Fin 1 => 0) 0 = 18 := by
  decide

end ScanBits

/-! ## Selection between points -/

/-- A scan that starts on zero words leaves the stored entry `k`, read back as
the entry itself. -/
theorem scan_from_zero_eq {G : Type} {n : Nat} (S : Store G n) (hS : S.wf)
    (table : Fin 8 → G) (k : Fin 8) :
    scan_from_zero S table k.val = table k := by
  unfold scan_from_zero
  rw [ec_table_scan_bits_zero (fun ii => S.store (table ii)) k (fun w => hS.2 _ w)]
  exact hS.1 _

section StoredSelection

variable {G : Type} [AddCommGroup G] {n : Nat}

/-- Negating the words and reading them back is negating the point read. -/
theorem load_cond_neg (S : Store G n) (hS : S.wf) (flag : Int) (w : Fin n → Nat) :
    S.load (ec_cond_neg_bits (neg_words S) flag w) = ec_cond_neg flag (S.load w) := by
  unfold ec_cond_neg_bits ec_cond_neg neg_words ec_neg
  split
  · rfl
  · exact hS.1 _

/-- What `ec_table_select_2` returns for any content `r` of the output variable:
the point that `r` OR-ed with the stored entry `k` is read as, conditionally
negated. -/
theorem ec_table_select_2_any (S : Store G n) (hS : S.wf) (table : Fin 8 → G) (a b i : Nat)
    (r : Fin n → Nat) :
    ec_table_select_2 S table a b i r
      = ec_cond_neg ((ec_table_select_2_flag a i : Nat) : Int)
          (S.load (fun w => r w |||
            S.store (table ⟨ec_table_select_2_k a b i, select_2_k_lt a b i⟩) w)) := by
  unfold ec_table_select_2
  rw [ec_table_select_2_bits_eq _ _ a b i r (fun k w => hS.2 _ w), load_cond_neg S hS]

/-- What `ec_table_select_4` returns for any content `r` of the output
variable. -/
theorem ec_table_select_4_any (S : Store G n) (hS : S.wf) (table : Fin 8 → G)
    (a b c d i : Nat) (r : Fin n → Nat) :
    ec_table_select_4 S table a b c d i r
      = ec_cond_neg ((ec_table_select_4_flag a i : Nat) : Int)
          (S.load (fun w => r w |||
            S.store (table ⟨ec_table_select_4_k b c d i, select_4_k_lt b c d i⟩) w)) := by
  unfold ec_table_select_4
  rw [ec_table_select_4_bits_eq _ _ a b c d i r (fun k w => hS.2 _ w), load_cond_neg S hS]

/-- Entered on zero words, `ec_table_select_2` returns entry `k`, conditionally
negated. -/
theorem ec_table_select_2_zero (S : Store G n) (hS : S.wf) (table : Fin 8 → G) (a b i : Nat) :
    ec_table_select_2 S table a b i (fun _ => 0)
      = ec_cond_neg ((ec_table_select_2_flag a i : Nat) : Int)
          (table ⟨ec_table_select_2_k a b i, select_2_k_lt a b i⟩) := by
  rw [ec_table_select_2_any S hS]
  congr 1
  have h : (fun w => 0 ||| S.store (table ⟨ec_table_select_2_k a b i, select_2_k_lt a b i⟩) w)
      = S.store (table ⟨ec_table_select_2_k a b i, select_2_k_lt a b i⟩) := by
    funext w
    simp
  rw [h, hS.1]

/-- Entered on zero words, `ec_table_select_4` returns entry `k`, conditionally
negated. -/
theorem ec_table_select_4_zero (S : Store G n) (hS : S.wf) (table : Fin 8 → G)
    (a b c d i : Nat) :
    ec_table_select_4 S table a b c d i (fun _ => 0)
      = ec_cond_neg ((ec_table_select_4_flag a i : Nat) : Int)
          (table ⟨ec_table_select_4_k b c d i, select_4_k_lt b c d i⟩) := by
  rw [ec_table_select_4_any S hS]
  congr 1
  have h : (fun w => 0 ||| S.store (table ⟨ec_table_select_4_k b c d i, select_4_k_lt b c d i⟩) w)
      = S.store (table ⟨ec_table_select_4_k b c d i, select_4_k_lt b c d i⟩) := by
    funext w
    simp
  rw [h, hS.1]

/-- `ec_table_select_2` entered on zero words, with the scan kept apart. -/
theorem ec_table_select_2_scan (S : Store G n) (hS : S.wf) (table : Fin 8 → G) (a b i : Nat) :
    ec_table_select_2 S table a b i (fun _ => 0)
      = ec_cond_neg (((((a >>> i) % U32) >>> 1 &&& 1) ^^^ 1 : Nat) : Int)
          (scan_from_zero S table
            ((((((a >>> i) % U32) ^^^ (((a >>> i) % U32) >>> 1)) &&& 1) <<< 2) % U32
              ||| (((b >>> i) % U32) &&& 3))) := by
  unfold ec_table_select_2 ec_table_select_2_bits scan_from_zero
  exact load_cond_neg S hS _ _

/-- `ec_table_select_4` entered on zero words, with the scan kept apart. -/
theorem ec_table_select_4_scan (S : Store G n) (hS : S.wf) (table : Fin 8 → G)
    (a b c d i : Nat) :
    ec_table_select_4 S table a b c d i (fun _ => 0)
      = ec_cond_neg ((((a >>> i) &&& 1) ^^^ 1 : Nat) : Int)
          (scan_from_zero S table
            ((((b >>> i) % U32) &&& 1 ||| (((((c >>> i) % U32) &&& 1) <<< 1) % U32))
              ||| (((((d >>> i) % U32) &&& 1) <<< 2) % U32))) := by
  unfold ec_table_select_4 ec_table_select_4_bits scan_from_zero
  exact load_cond_neg S hS _ _

theorem scan_table_2 (S : Store G n) (hS : S.wf) (A B : G) :
    scan_from_zero S (ec_gen_table_2 A B) 0 = 3 • A ∧
    scan_from_zero S (ec_gen_table_2 A B) 1 = 3 • A + B ∧
    scan_from_zero S (ec_gen_table_2 A B) 2 = 3 • A + 2 • B ∧
    scan_from_zero S (ec_gen_table_2 A B) 3 = 3 • A + 3 • B ∧
    scan_from_zero S (ec_gen_table_2 A B) 4 = A ∧
    scan_from_zero S (ec_gen_table_2 A B) 5 = A - B ∧
    scan_from_zero S (ec_gen_table_2 A B) 6 = A + 2 • B ∧
    scan_from_zero S (ec_gen_table_2 A B) 7 = A + B := by
  obtain ⟨h0, h1, h2, h3, h4, h5, h6, h7⟩ := gen_table_2_entries A B
  exact ⟨(scan_from_zero_eq S hS _ (0 : Fin 8)).trans h0,
    (scan_from_zero_eq S hS _ (1 : Fin 8)).trans h1,
    (scan_from_zero_eq S hS _ (2 : Fin 8)).trans h2,
    (scan_from_zero_eq S hS _ (3 : Fin 8)).trans h3,
    (scan_from_zero_eq S hS _ (4 : Fin 8)).trans h4,
    (scan_from_zero_eq S hS _ (5 : Fin 8)).trans h5,
    (scan_from_zero_eq S hS _ (6 : Fin 8)).trans h6,
    (scan_from_zero_eq S hS _ (7 : Fin 8)).trans h7⟩

/-- The sixteen rows of the window table in the source comment: `x0`, `x1` are
the two sign bits of the window and `y0`, `y1` the two magnitude bits. -/
theorem select_2_cases (S : Store G n) (hS : S.wf) (A B : G) (x0 x1 y0 y1 : Nat)
    (hx0 : x0 < 2) (hx1 : x1 < 2) (hy0 : y0 < 2) (hy1 : y1 < 2) :
    ec_cond_neg (((1 - x1 : Nat)) : Int)
        (scan_from_zero S (ec_gen_table_2 A B) (4 * ((x0 + x1) % 2) + (y0 + 2 * y1)))
      = (2 * (2 * (x1 : Int) - 1) + (2 * (x0 : Int) - 1)) • A
        + (2 * (2 * (x1 : Int) - 1) * (y1 : Int) + (2 * (x0 : Int) - 1) * (y0 : Int)) • B := by
  obtain ⟨h0, h1, h2, h3, h4, h5, h6, h7⟩ := scan_table_2 S hS A B
  interval_cases x0 <;> interval_cases x1 <;> interval_cases y0 <;> interval_cases y1 <;>
    simp [ec_cond_neg, h0, h1, h2, h3, h4, h5, h6, h7] <;> abel

/-- What `ec_table_select_2`, entered on zero words, returns on the table of
`ec_gen_table_2(A, B)`: the two signed digits of the window applied to `A`, and
the magnitude bits taken with those signs applied to `B`. -/
theorem ec_table_select_2_eq (S : Store G n) (hS : S.wf) (A B : G) (a b i : Nat) :
    ec_table_select_2 S (ec_gen_table_2 A B) a b i (fun _ => 0)
      = (2 * sac_digit a (i + 1) + sac_digit a i) • A
        + (2 * sac_digit a (i + 1) * bit_at b (i + 1) + sac_digit a i * bit_at b i) • B := by
  rw [ec_table_select_2_scan S hS, select_2_index, select_2_flag, sac_digit_eq, sac_digit_eq,
    bit_at_eq, bit_at_eq, div_pow_succ_mod a i, div_pow_succ_mod b i]
  simp only [Nat.shiftRight_eq_div_pow]
  have hy4 : b / 2 ^ i % 4 = b / 2 ^ i % 2 + 2 * (b / 2 ^ i / 2 % 2) := by omega
  rw [hy4]
  exact select_2_cases S hS A B _ _ _ _ (Nat.mod_lt _ (by norm_num))
    (Nat.mod_lt _ (by norm_num)) (Nat.mod_lt _ (by norm_num)) (Nat.mod_lt _ (by norm_num))

theorem scan_table_4 (S : Store G n) (hS : S.wf) (A B C D : G) :
    scan_from_zero S (ec_gen_table_4 A B C D) 0 = A ∧
    scan_from_zero S (ec_gen_table_4 A B C D) 1 = A + B ∧
    scan_from_zero S (ec_gen_table_4 A B C D) 2 = A + C ∧
    scan_from_zero S (ec_gen_table_4 A B C D) 3 = A + B + C ∧
    scan_from_zero S (ec_gen_table_4 A B C D) 4 = A + D ∧
    scan_from_zero S (ec_gen_table_4 A B C D) 5 = A + B + D ∧
    scan_from_zero S (ec_gen_table_4 A B C D) 6 = A + C + D ∧
    scan_from_zero S (ec_gen_table_4 A B C D) 7 = A + B + C + D :=
  ⟨scan_from_zero_eq S hS _ (0 : Fin 8), scan_from_zero_eq S hS _ (1 : Fin 8),
    scan_from_zero_eq S hS _ (2 : Fin 8), scan_from_zero_eq S hS _ (3 : Fin 8),
    scan_from_zero_eq S hS _ (4 : Fin 8), scan_from_zero_eq S hS _ (5 : Fin 8),
    scan_from_zero_eq S hS _ (6 : Fin 8), scan_from_zero_eq S hS _ (7 : Fin 8)⟩

/-- The sixteen cases of the one-bit window: `x0` is the sign bit and `yb`, `yc`,
`yd` are the magnitude bits. -/
theorem select_4_cases (S : Store G n) (hS : S.wf) (A B C D : G) (x0 yb yc yd : Nat)
    (hx0 : x0 < 2) (hyb : yb < 2) (hyc : yc < 2) (hyd : yd < 2) :
    ec_cond_neg (((1 - x0 : Nat)) : Int)
        (scan_from_zero S (ec_gen_table_4 A B C D) (yb + 2 * yc + 4 * yd))
      = (2 * (x0 : Int) - 1) • A + ((2 * (x0 : Int) - 1) * (yb : Int)) • B
        + ((2 * (x0 : Int) - 1) * (yc : Int)) • C + ((2 * (x0 : Int) - 1) * (yd : Int)) • D := by
  obtain ⟨h0, h1, h2, h3, h4, h5, h6, h7⟩ := scan_table_4 S hS A B C D
  interval_cases x0 <;> interval_cases yb <;> interval_cases yc <;> interval_cases yd <;>
    simp [ec_cond_neg, h0, h1, h2, h3, h4, h5, h6, h7] <;> abel

/-- What `ec_table_select_4`, entered on zero words, returns on the table of
`ec_gen_table_4(A, B, C, D)`. -/
theorem ec_table_select_4_eq (S : Store G n) (hS : S.wf) (A B C D : G) (a b c d i : Nat) :
    ec_table_select_4 S (ec_gen_table_4 A B C D) a b c d i (fun _ => 0)
      = sac_digit a i • A + (sac_digit a i * bit_at b i) • B
        + (sac_digit a i * bit_at c i) • C + (sac_digit a i * bit_at d i) • D := by
  rw [ec_table_select_4_scan S hS, select_4_index, select_4_flag, sac_digit_eq, bit_at_eq,
    bit_at_eq, bit_at_eq]
  simp only [Nat.shiftRight_eq_div_pow]
  exact select_4_cases S hS A B C D _ _ _ _ (Nat.mod_lt _ (by norm_num))
    (Nat.mod_lt _ (by norm_num)) (Nat.mod_lt _ (by norm_num)) (Nat.mod_lt _ (by norm_num))

/-- The toy points in memory satisfy the two facts about the stored form. -/
theorem toyStore_wf : toyStore.wf := by
  refine ⟨fun p => ?_, fun p w => ?_⟩
  · show ((p.val : Nat) : ZMod (2 ^ 128)) = p
    exact ZMod.natCast_zmod_val p
  · show p.val < U128
    exact ZMod.val_lt p

end StoredSelection

/-! ## The two selection windows -/

section Windows

variable {G : Type} [AddCommGroup G] {n : Nat}

/-- C12: for 128-bit `a`, `b` and `0 ≤ i ≤ 126`, `ec_table_select_2` on the table
of `ec_gen_table_2(A, B)`, entered with a zeroed `r`, returns
`(2 s1 + s0) A + (2 s1 b1 + s0 b0) B`, with `s0`, `s1` the signs read off bits
`i`, `i+1` of `a` and `b0`, `b1` bits `i`, `i+1` of `b`; it is entry `k` of the
table, conditionally negated, where `k` is `(a_i xor a_{i+1}) || b_{i+1} || b_i`,
which is below 8, and the negation happens exactly when bit `i+1` of `a` is 0. -/
theorem ec_table_select_2_window (S : Store G n) (hS : S.wf) (A B : G) (a b i : Nat)
    (_ha : a < 2 ^ 128) (_hb : b < 2 ^ 128) (_hi : i ≤ 126) :
    ec_table_select_2 S (ec_gen_table_2 A B) a b i (fun _ => 0)
      = (2 * sac_digit a (i + 1) + sac_digit a i) • A
        + (2 * sac_digit a (i + 1) * bit_at b (i + 1) + sac_digit a i * bit_at b i) • B ∧
    ec_table_select_2 S (ec_gen_table_2 A B) a b i (fun _ => 0)
      = ec_cond_neg ((ec_table_select_2_flag a i : Nat) : Int)
          (ec_gen_table_2 A B ⟨ec_table_select_2_k a b i, select_2_k_lt a b i⟩) ∧
    ec_table_select_2_k a b i
      = 4 * (if (a.testBit i != a.testBit (i + 1)) then 1 else 0)
        + 2 * (if b.testBit (i + 1) then 1 else 0) + (if b.testBit i then 1 else 0) ∧
    ec_table_select_2_k a b i < 8 ∧
    (ec_table_select_2_flag a i ≠ 0 ↔ a.testBit (i + 1) = false) := by
  refine ⟨ec_table_select_2_eq S hS A B a b i, ec_table_select_2_zero S hS _ a b i,
    select_2_k_eq a b i, select_2_k_lt a b i, ?_⟩
  rw [select_2_flag_eq]
  cases a.testBit (i + 1) <;> simp

/-- Witness for C12 on the toy points: window at `i = 0` of `a = 2`, `b = 1` (row
`10 01` of the source table, `1a - 1b`), with `A = 100`, `B = 1`. -/
theorem ec_table_select_2_window_witness :
    ec_table_select_2 toyStore (ec_gen_table_2 (100 : ZMod (2 ^ 128)) 1) 2 1 0 (fun _ => 0)
      = (2 * sac_digit 2 (0 + 1) + sac_digit 2 0) • (100 : ZMod (2 ^ 128))
        + (2 * sac_digit 2 (0 + 1) * bit_at 1 (0 + 1) + sac_digit 2 0 * bit_at 1 0)
          • (1 : ZMod (2 ^ 128)) :=
  (ec_table_select_2_window toyStore toyStore_wf (100 : ZMod (2 ^ 128)) 1 2 1 0 (by decide)
    (by decide) (by decide)).1

/-- C13: for 128-bit `a`, `b`, `c`, `d` and `0 ≤ i ≤ 127`, `ec_table_select_4` on
the table of `ec_gen_table_4(A, B, C, D)`, entered with a zeroed `r`, returns
`s (A + b_i B + c_i C + d_i D)` with `s` the sign read off bit `i` of `a`; it is
entry `k` of the table, conditionally negated, where `k` is
`b_i | c_i << 1 | d_i << 2`, which is below 8. -/
theorem ec_table_select_4_window (S : Store G n) (hS : S.wf) (A B C D : G)
    (a b c d i : Nat) (_ha : a < 2 ^ 128) (_hb : b < 2 ^ 128) (_hc : c < 2 ^ 128)
    (_hd : d < 2 ^ 128) (_hi : i ≤ 127) :
    ec_table_select_4 S (ec_gen_table_4 A B C D) a b c d i (fun _ => 0)
      = sac_digit a i • (A + bit_at b i • B + bit_at c i • C + bit_at d i • D) ∧
    ec_table_select_4 S (ec_gen_table_4 A B C D) a b c d i (fun _ => 0)
      = ec_cond_neg ((ec_table_select_4_flag a i : Nat) : Int)
          (ec_gen_table_4 A B C D ⟨ec_table_select_4_k b c d i, select_4_k_lt b c d i⟩) ∧
    ec_table_select_4_k b c d i
      = (if b.testBit i then 1 else 0) + 2 * (if c.testBit i then 1 else 0)
        + 4 * (if d.testBit i then 1 else 0) ∧
    ec_table_select_4_k b c d i < 8 ∧
    (ec_table_select_4_flag a i ≠ 0 ↔ a.testBit i = false) := by
  refine ⟨?_, ec_table_select_4_zero S hS _ a b c d i, select_4_k_eq b c d i,
    select_4_k_lt b c d i, ?_⟩
  · rw [ec_table_select_4_eq S hS]
    module
  · rw [select_4_flag_eq]
    cases a.testBit i <;> simp

/-- Witness for C13 on the toy points: `i = 0`, `a = 0` (negative digit), `b = 1`,
`c = 0`, `d = 1`. -/
theorem ec_table_select_4_window_witness :
    ec_table_select_4 toyStore (ec_gen_table_4 (1000 : ZMod (2 ^ 128)) 1 10 100) 0 1 0 1 0
        (fun _ => 0)
      = sac_digit 0 0 • ((1000 : ZMod (2 ^ 128)) + bit_at 1 0 • (1 : ZMod (2 ^ 128))
          + bit_at 0 0 • (10 : ZMod (2 ^ 128)) + bit_at 1 0 • (100 : ZMod (2 ^ 128))) :=
  (ec_table_select_4_window toyStore toyStore_wf (1000 : ZMod (2 ^ 128)) 1 10 100 0 1 0 1 0
    (by decide) (by decide) (by decide) (by decide) (by decide)).1

end Windows

/-! ## The single-point ladder -/

section Mul

variable {F G : Type} [AddCommGroup G] {n : Nat}

/-- The main loop of `ec_mul` after `m` iterations on the table of
`ec_gen_table_2(A, B)`, when every selection is entered on zero words: the
accumulator is scaled by `4^m` and the low `2m` digits of the recoded pair are
added in. -/
theorem ec_mul_loop_eq (S : Store G n) (hS : S.wf) (A B : G) (a b : Nat) :
    ∀ (m : Nat) (X : G), ec_mul_loop S (ec_gen_table_2 A B) a b (fun _ => 0) m X
      = ((4 : Int) ^ m) • X + sac_value a (2 * m) • A + sac_value_mag a b (2 * m) • B := by
  intro m
  induction m with
  | zero =>
    intro X
    simp [ec_mul_loop, sac_value, sac_value_mag]
  | succ m ih =>
    intro X
    simp only [ec_mul_loop]
    rw [ih, ec_table_select_2_eq S hS]
    have h2 : 2 * (m + 1) = 2 * m + 1 + 1 := by ring
    have hp : (2 : Int) ^ (2 * m) = 4 ^ m := by rw [pow_mul]; norm_num
    rw [h2, sac_value_succ, sac_value_succ, sac_value_mag_succ, sac_value_mag_succ, pow_succ,
      pow_succ (2 : Int) (2 * m), hp]
    simp only [ec_dbl, ec_add]
    module

theorem ec_cond_neg_eq (flag : Int) (X : G) : ec_cond_neg flag X = sign_of flag • X := by
  unfold ec_cond_neg sign_of
  split <;> simp

theorem ec_cond_add_bit (a : Nat) (X P : G) :
    ec_cond_add (1 - a % 2) X P = X + ((1 - a % 2 : Nat) : Int) • P := by
  unfold ec_cond_add ec_add
  rcases Nat.mod_two_eq_zero_or_one a with h | h <;> simp [h]

theorem ec_dbl_dbl (X : G) : ec_dbl (ec_dbl X) = (4 : Int) • X := by
  simp only [ec_dbl]
  module

/-- Entering the loop of `ec_mul` with the selection at 126 is one more
iteration started from the neutral element. -/
theorem ec_mul_loop_start (S : Store G n) (table : Fin 8 → G) (a b : Nat)
    (junk : Fin n → Nat) :
    ec_mul_loop S table a b junk 63 (ec_table_select_2 S table a b 126 junk)
      = ec_mul_loop S table a b junk 64 0 := by
  have h : ec_mul_loop S table a b junk (63 + 1) 0
      = ec_mul_loop S table a b junk 63
          (ec_add (ec_dbl (ec_dbl 0)) (ec_table_select_2 S table a b (2 * 63) junk)) := by
    rw [ec_mul_loop]
  have e : (64 : Nat) = 63 + 1 := rfl
  rw [e, h]
  simp only [ec_dbl, ec_add, add_zero, zero_add]

/-- The body of `ec_mul` from the table on, when `X` and `T` hold zero words on
entry, for subscalars `0 < a < 2^128` and `b < 2^127` and table base points `A`,
`B`: four times `a A + b B`. -/
theorem ec_mul_core (S : Store G n) (hS : S.wf) (A B : G) (a b : Nat) (ha0 : 0 < a)
    (ha : a < 2 ^ 128) (hb : b < 2 ^ 127) :
    ec_dbl (ec_dbl (ec_cond_add (ec_recode_scalars_2 a b 128).1
      (ec_mul_loop S (ec_gen_table_2 A B) (ec_recode_scalars_2 a b 128).2.1
        (ec_recode_scalars_2 a b 128).2.2 (fun _ => 0) 63
        (ec_table_select_2 S (ec_gen_table_2 A B) (ec_recode_scalars_2 a b 128).2.1
          (ec_recode_scalars_2 a b 128).2.2 126 (fun _ => 0))) A))
      = (4 : Int) • ((a : Int) • A + (b : Int) • B) := by
  rw [ec_mul_loop_start, ec_mul_loop_eq S hS, ec_dbl_dbl, recode_2_fst, ec_cond_add_bit]
  have hm := (recode_2_mag a b 128 (by norm_num) (by norm_num) hb).2
  have hs := sac_value_recoded a 128 (by norm_num) ha0 ha
  rw [← recode_2_snd a b 128 (by norm_num) (by norm_num) ha0 ha] at hs
  have h128 : 2 * 64 = 128 := by norm_num
  rw [h128, hm, ← hs]
  module

/-- The value `ec_mul` returns when `X` and `T` hold zero words on entry, in
terms of the decomposition of its scalar: the affine form of
`4 (sa a P + sb b Q)`. -/
theorem ec_mul_eq (E : Ext F G) (S : Store G n) (hS : S.wf) (k : Scalar)
    (P0 : ecpt_affine F) (asign bsign : Int) (a b : Nat)
    (hdec : E.gls_decompose k = (asign, a, bsign, b))
    (ha0 : 0 < a) (ha : a < 2 ^ 128) (hb : b < 2 ^ 127) :
    ec_mul E S (fun _ => 0) k P0
      = E.ec_affine ((4 : Int) • ((sign_of asign * a) • E.ec_expand P0
          + (sign_of bsign * b) • E.ec_expand (gls_morph_point E P0))) := by
  have hcore := ec_mul_core S hS (ec_cond_neg asign (E.ec_expand P0))
    (ec_cond_neg bsign (E.ec_expand (gls_morph_point E P0))) a b ha0 ha hb
  have hunf : ec_mul E S (fun _ => 0) k P0 = E.ec_affine (ec_dbl (ec_dbl (ec_cond_add
      (ec_recode_scalars_2 a b 128).1
      (ec_mul_loop S (ec_gen_table_2 (ec_cond_neg asign (E.ec_expand P0))
          (ec_cond_neg bsign (E.ec_expand (gls_morph_point E P0))))
        (ec_recode_scalars_2 a b 128).2.1 (ec_recode_scalars_2 a b 128).2.2 (fun _ => 0) 63
        (ec_table_select_2 S (ec_gen_table_2 (ec_cond_neg asign (E.ec_expand P0))
            (ec_cond_neg bsign (E.ec_expand (gls_morph_point E P0))))
          (ec_recode_scalars_2 a b 128).2.1 (ec_recode_scalars_2 a b 128).2.2 126
          (fun _ => 0)))
      (ec_cond_neg asign (E.ec_expand P0))))) := by
    simp only [ec_mul, hdec]
  rw [hunf, hcore, ec_cond_neg_eq, ec_cond_neg_eq]
  congr 1
  module

end Mul

/-! ## The simultaneous ladder -/

section Simul

variable {F G : Type} [AddCommGroup G] {n : Nat}

/-- The main loop of `ec_simul` after `m` iterations on the table of
`ec_gen_table_4(A, B, C, D)`, when every selection is entered on zero words. -/
theorem ec_simul_loop_eq (S : Store G n) (hS : S.wf) (A B C D : G) (a b c d : Nat) :
    ∀ (m : Nat) (X : G),
      ec_simul_loop S (ec_gen_table_4 A B C D) a b c d (fun _ => 0) m X
        = ((2 : Int) ^ m) • X + sac_value a m • A + sac_value_mag a b m • B
          + sac_value_mag a c m • C + sac_value_mag a d m • D := by
  intro m
  induction m with
  | zero =>
    intro X
    simp [ec_simul_loop, sac_value, sac_value_mag]
  | succ m ih =>
    intro X
    simp only [ec_simul_loop]
    rw [ih, ec_table_select_4_eq S hS, sac_value_succ, sac_value_mag_succ, sac_value_mag_succ,
      sac_value_mag_succ, pow_succ]
    simp only [ec_dbl, ec_add]
    module

/-- Entering the loop of `ec_simul` with the selection at 126 is one more
iteration started from the neutral element. -/
theorem ec_simul_loop_start (S : Store G n) (table : Fin 8 → G) (a b c d : Nat)
    (junk : Fin n → Nat) :
    ec_simul_loop S table a b c d junk 126 (ec_table_select_4 S table a b c d 126 junk)
      = ec_simul_loop S table a b c d junk 127 0 := by
  have h : ec_simul_loop S table a b c d junk (126 + 1) 0
      = ec_simul_loop S table a b c d junk 126
          (ec_add (ec_dbl 0) (ec_table_select_4 S table a b c d 126 junk)) := by
    rw [ec_simul_loop]
  have e : (127 : Nat) = 126 + 1 := rfl
  rw [e, h]
  simp only [ec_dbl, ec_add, add_zero, zero_add]

/-- The body of `ec_simul` from the table on, when `X` and `T` hold zero words on
entry, for subscalars `0 < a0 < 2^127` and `a1, b0, b1 < 2^126` and table base
points `A`, `B`, `C`, `D`. -/
theorem ec_simul_core (S : Store G n) (hS : S.wf) (A B C D : G) (a0 a1 b0 b1 : Nat)
    (h0 : 0 < a0) (ha0 : a0 < 2 ^ 127) (ha1 : a1 < 2 ^ 126) (hb0 : b0 < 2 ^ 126)
    (hb1 : b1 < 2 ^ 126) :
    ec_dbl (ec_dbl (ec_cond_add (ec_recode_scalars_4 a0 a1 b0 b1 127).1
      (ec_simul_loop S (ec_gen_table_4 A B C D) (ec_recode_scalars_4 a0 a1 b0 b1 127).2.1
        (ec_recode_scalars_4 a0 a1 b0 b1 127).2.2.1 (ec_recode_scalars_4 a0 a1 b0 b1 127).2.2.2.1
        (ec_recode_scalars_4 a0 a1 b0 b1 127).2.2.2.2 (fun _ => 0) 126
        (ec_table_select_4 S (ec_gen_table_4 A B C D) (ec_recode_scalars_4 a0 a1 b0 b1 127).2.1
          (ec_recode_scalars_4 a0 a1 b0 b1 127).2.2.1
          (ec_recode_scalars_4 a0 a1 b0 b1 127).2.2.2.1
          (ec_recode_scalars_4 a0 a1 b0 b1 127).2.2.2.2 126 (fun _ => 0))) A))
      = (4 : Int) • ((a0 : Int) • A + (a1 : Int) • B + (b0 : Int) • C + (b1 : Int) • D) := by
  rw [ec_simul_loop_start, ec_simul_loop_eq S hS, ec_dbl_dbl, recode_4_fst, ec_cond_add_bit]
  have hs := sac_value_recoded a0 127 (by norm_num) h0 ha0
  rw [← recode_2_snd a0 a1 127 (by norm_num) (by norm_num) h0 ha0] at hs
  have hB := (recode_2_mag a0 a1 127 (by norm_num) (by norm_num) ha1).2
  have hC := (recode_2_mag a0 b0 127 (by norm_num) (by norm_num) hb0).2
  have hD := (recode_2_mag a0 b1 127 (by norm_num) (by norm_num) hb1).2
  rw [recode_2_a_indep a0 b0 a1] at hC
  rw [recode_2_a_indep a0 b1 a1] at hD
  rw [recode_4_a, recode_4_b, recode_4_c, recode_4_d, hB, hC, hD, ← hs]
  module

/-- The value `ec_simul` returns when `X` and `T` hold zero words on entry, in
terms of the decompositions of its scalars. -/
theorem ec_simul_eq (E : Ext F G) (S : Store G n) (hS : S.wf) (a b : Scalar)
    (P Q : ecpt_affine F) (a0sign a1sign b0sign b1sign : Int) (a0 a1 b0 b1 : Nat)
    (hdeca : E.gls_decompose a = (a0sign, a0, a1sign, a1))
    (hdecb : E.gls_decompose b = (b0sign, b0, b1sign, b1))
    (h0 : 0 < a0) (ha0 : a0 < 2 ^ 127) (ha1 : a1 < 2 ^ 126) (hb0 : b0 < 2 ^ 126)
    (hb1 : b1 < 2 ^ 126) :
    ec_simul E S (fun _ => 0) a P b Q
      = E.ec_affine ((4 : Int) • ((sign_of a0sign * a0) • E.ec_expand P
          + (sign_of a1sign * a1) • E.ec_expand (gls_morph_point E P)
          + (sign_of b0sign * b0) • E.ec_expand Q
          + (sign_of b1sign * b1) • E.ec_expand (gls_morph_point E Q))) := by
  have hcore := ec_simul_core S hS (ec_cond_neg a0sign (E.ec_expand P))
    (ec_cond_neg a1sign (E.ec_expand (gls_morph_point E P)))
    (ec_cond_neg b0sign (E.ec_expand Q))
    (ec_cond_neg b1sign (E.ec_expand (gls_morph_point E Q))) a0 a1 b0 b1 h0 ha0 ha1 hb0 hb1
  simp only [ec_simul, hdeca, hdecb]
  rw [hcore, ec_cond_neg_eq, ec_cond_neg_eq, ec_cond_neg_eq, ec_cond_neg_eq]
  congr 1
  module

/-- With `X` and `T` on zero words, and `ec_affine` undoing `ec_expand`,
`ec_simul(a, P, b, Q)` is the group sum of `ec_mul(a, P)` and `ec_mul(b, Q)`. -/
theorem ec_simul_zero_eq_mul_add_mul (E : Ext F G) (S : Store G n) (hS : S.wf)
    (a b : Scalar) (P Q : ecpt_affine F)
    (a0sign a1sign b0sign b1sign : Int) (a0 a1 b0 b1 : Nat)
    (hinv : ∀ X : G, E.ec_expand (E.ec_affine X) = X)
    (hdeca : E.gls_decompose a = (a0sign, a0, a1sign, a1))
    (hdecb : E.gls_decompose b = (b0sign, b0, b1sign, b1))
    (h0a : 0 < a0) (ha0 : a0 < 2 ^ 126) (h0b : 0 < b0) (hb0 : b0 < 2 ^ 126)
    (ha1 : a1 < 2 ^ 126) (hb1 : b1 < 2 ^ 126) :
    ec_simul E S (fun _ => 0) a P b Q
      = E.ec_affine (ec_add (E.ec_expand (ec_mul E S (fun _ => 0) a P))
          (E.ec_expand (ec_mul E S (fun _ => 0) b Q))) := by
  rw [ec_simul_eq E S hS a b P Q a0sign a1sign b0sign b1sign a0 a1 b0 b1 hdeca hdecb h0a
      (lt_trans ha0 (by norm_num)) ha1 hb0 hb1,
    ec_mul_eq E S hS a P a0sign a1sign a0 a1 hdeca h0a (lt_trans ha0 (by norm_num))
      (lt_trans ha1 (by norm_num)),
    ec_mul_eq E S hS b Q b0sign b1sign b0 b1 hdecb h0b (lt_trans hb0 (by norm_num))
      (lt_trans hb1 (by norm_num)),
    hinv, hinv]
  simp only [ec_add]
  congr 1
  module

/-- C10: `ec_mul_gen(k)` returns what `ec_mul(k, G)` returns for the affine point
`G = (EC_GX, EC_GY)`. -/
theorem ec_mul_gen_eq_ec_mul (E : Ext F G) (S : Store G n) (junk : Fin n → Nat)
    (k : Scalar) :
    ec_mul_gen E S junk k = ec_mul E S junk k ⟨E.EC_GX, E.EC_GY⟩ := rfl

end Simul

/-! ## The ladders on memory that is not zero -/

set_option maxRecDepth 100000 in
theorem toy_mul_prior_two :
    (ec_mul toyExt toyStore (fun _ => 2) ⟨12345, 678, 0, 0⟩ ⟨7, 0⟩).x.val
      = 113427455640313171347447697779384335444 := by
  decide

set_option maxRecDepth 100000 in
theorem toy_mul_prior_zero :
    (ec_mul toyExt toyStore (fun _ => 0) ⟨12345, 678, 0, 0⟩ ⟨7, 0⟩).x.val
      = 350192989495302128223804 := by
  decide

set_option maxRecDepth 100000 in
theorem toy_simul_prior_two :
    (ec_simul toyExt toyStore (fun _ => 2) ⟨12345, 678, 1, 0⟩ ⟨7, 0⟩ ⟨2 ^ 64 - 1, 3, 0, 1⟩
      ⟨11, 0⟩).x.val = 348569676016815687088992 := by
  decide

set_option maxRecDepth 100000 in
theorem toy_simul_prior_zero :
    (ec_simul toyExt toyStore (fun _ => 0) ⟨12345, 678, 1, 0⟩ ⟨7, 0⟩ ⟨2 ^ 64 - 1, 3, 0, 1⟩
      ⟨11, 0⟩).x.val = 348569676016815686990232 := by
  decide

set_option maxRecDepth 100000 in
theorem toy_mul_sum_prior_two :
    (toyExt.ec_affine (ec_add
        (toyExt.ec_expand (ec_mul toyExt toyStore (fun _ => 2) ⟨12345, 678, 1, 0⟩ ⟨7, 0⟩))
        (toyExt.ec_expand
          (ec_mul toyExt toyStore (fun _ => 2) ⟨2 ^ 64 - 1, 3, 0, 1⟩ ⟨11, 0⟩)))).x.val
      = 113427455640313169785623366205308208064 := by
  decide

section CorrectionStep

variable {F G : Type} [AddCommGroup G] {n : Nat}

/-- `ec_simul` from its correction step on. -/
theorem ec_simul_tail (E : Ext F G) (S : Store G n) (junk : Fin n → Nat) (a b : Scalar)
    (P Q : ecpt_affine F) :
    ec_simul E S junk a P b Q
      = E.ec_affine (ec_dbl (ec_dbl (ec_cond_add (ec_simul_recode_bit E a b)
          (ec_simul_ladder E S junk a P b Q) (ec_simul_P0 E a P)))) := by
  rcases ha : E.gls_decompose a with ⟨a0sign, a0, a1sign, a1⟩
  rcases hb : E.gls_decompose b with ⟨b0sign, b0, b1sign, b1⟩
  simp only [ec_simul, ec_simul_ladder, ec_simul_recode_bit, ec_simul_P0, ha, hb]

theorem ec_simul_P0_eq (E : Ext F G) (a : Scalar) (P : ecpt_affine F) :
    ec_simul_P0 E a P = ec_cond_neg (E.gls_decompose a).1 (E.ec_expand P) := by
  rcases ha : E.gls_decompose a with ⟨a0sign, a0, a1sign, a1⟩
  simp only [ec_simul_P0, ha]

/-- C18, as the code has it: when the recoding bit is 1 the final correction of
`ec_simul` adds the content of `P0` after `ec_cond_neg(a0sign, P0)`, that is the
expanded input point `P` when `a0sign` is 0 and its negation when `a0sign` is
set. -/
theorem ec_simul_correction_point (E : Ext F G) (S : Store G n) (junk : Fin n → Nat)
    (a b : Scalar) (P Q : ecpt_affine F) (hbit : ec_simul_recode_bit E a b = 1) :
    ec_simul E S junk a P b Q
      = E.ec_affine (ec_dbl (ec_dbl (ec_add (ec_simul_ladder E S junk a P b Q)
          (ec_cond_neg (E.gls_decompose a).1 (E.ec_expand P))))) ∧
    ((E.gls_decompose a).1 = 0 →
      ec_cond_neg (E.gls_decompose a).1 (E.ec_expand P) = E.ec_expand P) ∧
    ((E.gls_decompose a).1 ≠ 0 →
      ec_cond_neg (E.gls_decompose a).1 (E.ec_expand P) = -E.ec_expand P) := by
  refine ⟨?_, ?_, ?_⟩
  · rw [ec_simul_tail, hbit, ec_simul_P0_eq]
    simp [ec_cond_add]
  · intro h
    simp [ec_cond_neg, h]
  · intro h
    simp [ec_cond_neg, h]

/-- Witness for C18 on the toy curve layer, with `a0 = 12346` even (recoding bit
1) and `a0sign` set. -/
theorem ec_simul_correction_point_witness :
    ec_simul toyExt toyStore (fun _ => 0) ⟨12346, 678, 1, 0⟩ ⟨7, 0⟩ ⟨2 ^ 64 - 1, 3, 0, 1⟩
        ⟨11, 0⟩
      = toyExt.ec_affine (ec_dbl (ec_dbl (ec_add
          (ec_simul_ladder toyExt toyStore (fun _ => 0) ⟨12346, 678, 1, 0⟩ ⟨7, 0⟩
            ⟨2 ^ 64 - 1, 3, 0, 1⟩ ⟨11, 0⟩)
          (ec_cond_neg (toyExt.gls_decompose ⟨12346, 678, 1, 0⟩).1
            (toyExt.ec_expand ⟨7, 0⟩))))) :=
  (ec_simul_correction_point toyExt toyStore (fun _ => 0) ⟨12346, 678, 1, 0⟩
    ⟨2 ^ 64 - 1, 3, 0, 1⟩ ⟨7, 0⟩ ⟨11, 0⟩ (by decide)).1

/-- C18 as stated fails: on the toy curve layer, with `a0 = 12346` even (recoding
bit 1) and `a0sign` set, `ec_simul` does not return what adding the expanded
input point `P` itself to the working point would give. -/
theorem ec_simul_correction_not_pre_negation :
    ec_simul_recode_bit toyExt ⟨12346, 678, 1, 0⟩ ⟨2 ^ 64 - 1, 3, 0, 1⟩ = 1 ∧
    ec_simul toyExt toyStore (fun _ => 0) ⟨12346, 678, 1, 0⟩ ⟨7, 0⟩ ⟨2 ^ 64 - 1, 3, 0, 1⟩
        ⟨11, 0⟩
      ≠ toyExt.ec_affine (ec_dbl (ec_dbl (ec_add
          (ec_simul_ladder toyExt toyStore (fun _ => 0) ⟨12346, 678, 1, 0⟩ ⟨7, 0⟩
            ⟨2 ^ 64 - 1, 3, 0, 1⟩ ⟨11, 0⟩)
          (toyExt.ec_expand ⟨7, 0⟩)))) := by
  have hbit : ec_simul_recode_bit toyExt ⟨12346, 678, 1, 0⟩ ⟨2 ^ 64 - 1, 3, 0, 1⟩ = 1 := by
    decide
  refine ⟨hbit, ?_⟩
  rw [ec_simul_tail, hbit, ec_simul_P0_eq]
  generalize ec_simul_ladder toyExt toyStore (fun _ => 0) ⟨12346, 678, 1, 0⟩ ⟨7, 0⟩
    ⟨2 ^ 64 - 1, 3, 0, 1⟩ ⟨11, 0⟩ = L
  simp only [toyExt, ec_cond_add, ec_cond_neg, ec_dbl, ec_add]
  intro h
  have h2 := congrArg ecpt_affine.x h
  simp only [Nat.cast_one, one_ne_zero, ↓reduceIte] at h2
  have h3 : (56 : ZMod (2 ^ 128)) = 0 := by linear_combination -h2
  exact absurd h3 (by decide)

end CorrectionStep

/-! ## Regularity of the sequence of operations -/

theorem Traced.pure_val {α : Type} (a : α) : (pure a : Traced α).val = a := rfl

theorem Traced.pure_ops {α : Type} (a : α) : (pure a : Traced α).ops = [] := rfl

theorem Traced.bind_val {α β : Type} (x : Traced α) (f : α → Traced β) :
    (x >>= f).val = (f x.val).val := rfl

theorem Traced.bind_ops {α β : Type} (x : Traced α) (f : α → Traced β) :
    (x >>= f).ops = x.ops ++ (f x.val).ops := rfl

/-- The recorded scan over any list of indices: its value is the scan of the
stored-words model, and its operations are a mask, a read of the entry at the
loop index and a masked store, for each index in turn. -/
theorem scan_run_list {n : Nat} (table : Fin 8 → Fin n → Nat) (k : Nat) (l : List (Fin 8))
    (r : Fin n → Nat) :
    (l.foldlM (ec_table_scan_step table k) r).val
      = l.foldl (fun r ii => ec_set_mask_bits (table ii) (ec_gen_mask_bits ii.val k) r) r
    ∧ (l.foldlM (ec_table_scan_step table k) r).ops
      = l.flatMap (fun ii => [Op.gen_mask, Op.read ii.val, Op.set_mask]) := by
  induction l generalizing r with
  | nil => exact ⟨rfl, rfl⟩
  | cons ii l ih =>
    rw [List.foldlM_cons, Traced.bind_val, Traced.bind_ops, List.foldl_cons, List.flatMap_cons]
    refine ⟨(ih _).1, ?_⟩
    rw [(ih _).2]
    rfl

theorem ec_table_scan_run_val {n : Nat} (table : Fin 8 → Fin n → Nat) (k : Nat)
    (r : Fin n → Nat) :
    (ec_table_scan_run table k r).val = ec_table_scan_bits table k r :=
  (scan_run_list table k (List.finRange 8) r).1

theorem ec_table_scan_run_ops {n : Nat} (table : Fin 8 → Fin n → Nat) (k : Nat)
    (r : Fin n → Nat) :
    (ec_table_scan_run table k r).ops
      = [Op.gen_mask, Op.read 0, Op.set_mask, Op.gen_mask, Op.read 1, Op.set_mask,
          Op.gen_mask, Op.read 2, Op.set_mask, Op.gen_mask, Op.read 3, Op.set_mask,
          Op.gen_mask, Op.read 4, Op.set_mask, Op.gen_mask, Op.read 5, Op.set_mask,
          Op.gen_mask, Op.read 6, Op.set_mask, Op.gen_mask, Op.read 7, Op.set_mask] := by
  rw [ec_table_scan_run, (scan_run_list table k (List.finRange 8) r).2, finRange_eight]
  rfl

section Regular

variable {F G : Type} [AddCommGroup G] {n : Nat}

theorem ec_table_select_2_run_val (S : Store G n) (table : Fin 8 → G) (a b index : Nat)
    (r : Fin n → Nat) :
    (ec_table_select_2_run S table a b index r).val = ec_table_select_2 S table a b index r := by
  simp only [ec_table_select_2_run, ec_table_select_2_bits_run, Traced.bind_val,
    Traced.pure_val, ec_table_scan_run_val, ec_cond_neg_bits_call, ec_table_select_2,
    ec_table_select_2_bits]

theorem ec_table_select_2_run_ops (S : Store G n) (table : Fin 8 → G) (a b index : Nat)
    (r : Fin n → Nat) :
    (ec_table_select_2_run S table a b index r).ops = select_trace := by
  simp only [ec_table_select_2_run, ec_table_select_2_bits_run, Traced.bind_ops,
    Traced.pure_ops, ec_table_scan_run_ops, ec_cond_neg_bits_call, select_trace,
    List.append_nil, List.cons_append, List.nil_append]

theorem ec_table_select_4_run_val (S : Store G n) (table : Fin 8 → G) (a b c d index : Nat)
    (r : Fin n → Nat) :
    (ec_table_select_4_run S table a b c d index r).val
      = ec_table_select_4 S table a b c d index r := by
  simp only [ec_table_select_4_run, ec_table_select_4_bits_run, Traced.bind_val,
    Traced.pure_val, ec_table_scan_run_val, ec_cond_neg_bits_call, ec_table_select_4,
    ec_table_select_4_bits]

theorem ec_table_select_4_run_ops (S : Store G n) (table : Fin 8 → G) (a b c d index : Nat)
    (r : Fin n → Nat) :
    (ec_table_select_4_run S table a b c d index r).ops = select_trace := by
  simp only [ec_table_select_4_run, ec_table_select_4_bits_run, Traced.bind_ops,
    Traced.pure_ops, ec_table_scan_run_ops, ec_cond_neg_bits_call, select_trace,
    List.append_nil, List.cons_append, List.nil_append]

theorem ec_gen_table_2_run_val (a b : G) : (ec_gen_table_2_run a b).val = ec_gen_table_2 a b :=
  rfl

theorem ec_gen_table_2_run_ops (a b : G) :
    (ec_gen_table_2_run a b).ops
      = [Op.neg, Op.set, Op.add, Op.add, Op.add, Op.dbl, Op.add, Op.add, Op.add, Op.add] :=
  rfl

theorem ec_gen_table_4_run_val (a b c d : G) :
    (ec_gen_table_4_run a b c d).val = ec_gen_table_4 a b c d :=
  rfl

theorem ec_gen_table_4_run_ops (a b c d : G) :
    (ec_gen_table_4_run a b c d).ops
      = [Op.set, Op.add, Op.add, Op.add, Op.add, Op.add, Op.add, Op.add] :=
  rfl

theorem ec_mul_loop_run_val (S : Store G n) (table : Fin 8 → G) (a b : Nat)
    (junk : Fin n → Nat) (m : Nat) (X : G) :
    (ec_mul_loop_run S table a b junk m X).val = ec_mul_loop S table a b junk m X := by
  induction m generalizing X with
  | zero => rfl
  | succ m ih =>
    rw [ec_mul_loop_run, ec_mul_loop]
    simp only [Traced.bind_val, ec_table_select_2_run_val, ih, ec_dbl_call, ec_add_call]

theorem ec_mul_loop_run_ops (S : Store G n) (table : Fin 8 → G) (a b : Nat)
    (junk : Fin n → Nat) (m : Nat) (X : G) :
    (ec_mul_loop_run S table a b junk m X).ops
      = repeat_ops (select_trace ++ [Op.dbl, Op.dbl, Op.add]) m := by
  induction m generalizing X with
  | zero => rfl
  | succ m ih =>
    rw [ec_mul_loop_run, repeat_ops]
    simp only [Traced.bind_ops, ec_table_select_2_run_ops, ih, ec_dbl_call, ec_add_call,
      List.append_assoc, List.cons_append, List.nil_append]

theorem ec_simul_loop_run_val (S : Store G n) (table : Fin 8 → G) (a b c d : Nat)
    (junk : Fin n → Nat) (m : Nat) (X : G) :
    (ec_simul_loop_run S table a b c d junk m X).val
      = ec_simul_loop S table a b c d junk m X := by
  induction m generalizing X with
  | zero => rfl
  | succ m ih =>
    rw [ec_simul_loop_run, ec_simul_loop]
    simp only [Traced.bind_val, ec_table_select_4_run_val, ih, ec_dbl_call, ec_add_call]

theorem ec_simul_loop_run_ops (S : Store G n) (table : Fin 8 → G) (a b c d : Nat)
    (junk : Fin n → Nat) (m : Nat) (X : G) :
    (ec_simul_loop_run S table a b c d junk m X).ops
      = repeat_ops (select_trace ++ [Op.dbl, Op.add]) m := by
  induction m generalizing X with
  | zero => rfl
  | succ m ih =>
    rw [ec_simul_loop_run, repeat_ops]
    simp only [Traced.bind_ops, ec_table_select_4_run_ops, ih, ec_dbl_call, ec_add_call,
      List.append_assoc, List.cons_append, List.nil_append]

theorem ec_mul_run_val (E : Ext F G) (S : Store G n) (junk : Fin n → Nat) (k : Scalar)
    (P0 : ecpt_affine F) :
    (ec_mul_run E S junk k P0).val = ec_mul E S junk k P0 := by
  simp only [ec_mul_run, ec_mul, Traced.bind_val, ec_table_select_2_run_val,
    ec_mul_loop_run_val, ec_gen_table_2_run_val, gls_decompose_call, gls_morph_call,
    ec_expand_call, ec_cond_neg_call, ec_recode_scalars_2_call, ec_cond_add_call, ec_dbl_call,
    ec_affine_call]

theorem ec_mul_run_ops (E : Ext F G) (S : Store G n) (junk : Fin n → Nat) (k : Scalar)
    (P0 : ecpt_affine F) :
    (ec_mul_run E S junk k P0).ops
      = ec_mul_setup_trace ++ select_trace
          ++ repeat_ops (select_trace ++ [Op.dbl, Op.dbl, Op.add]) 63
          ++ [Op.cond_add, Op.dbl, Op.dbl, Op.affine] := by
  simp only [ec_mul_run, Traced.bind_ops, ec_table_select_2_run_ops,
    ec_mul_loop_run_ops, ec_gen_table_2_run_ops, gls_decompose_call, gls_morph_call,
    ec_expand_call, ec_cond_neg_call, ec_recode_scalars_2_call, ec_cond_add_call, ec_dbl_call,
    ec_affine_call, ec_mul_setup_trace, List.append_assoc, List.cons_append, List.nil_append]

theorem ec_simul_run_val (E : Ext F G) (S : Store G n) (junk : Fin n → Nat) (a : Scalar)
    (P : ecpt_affine F) (b : Scalar) (Q : ecpt_affine F) :
    (ec_simul_run E S junk a P b Q).val = ec_simul E S junk a P b Q := by
  simp only [ec_simul_run, ec_simul, Traced.bind_val, ec_table_select_4_run_val,
    ec_simul_loop_run_val, ec_gen_table_4_run_val, gls_decompose_call, gls_morph_call,
    ec_expand_call, ec_cond_neg_call, ec_recode_scalars_4_call, ec_cond_add_call, ec_dbl_call,
    ec_affine_call]

theorem ec_simul_run_ops (E : Ext F G) (S : Store G n) (junk : Fin n → Nat) (a : Scalar)
    (P : ecpt_affine F) (b : Scalar) (Q : ecpt_affine F) :
    (ec_simul_run E S junk a P b Q).ops
      = ec_simul_setup_trace ++ select_trace
          ++ repeat_ops (select_trace ++ [Op.dbl, Op.add]) 126
          ++ [Op.cond_add, Op.dbl, Op.dbl, Op.affine] := by
  simp only [ec_simul_run, Traced.bind_ops, ec_table_select_4_run_ops,
    ec_simul_loop_run_ops, ec_gen_table_4_run_ops, gls_decompose_call, gls_morph_call,
    ec_expand_call, ec_cond_neg_call, ec_recode_scalars_4_call, ec_cond_add_call, ec_dbl_call,
    ec_affine_call, ec_simul_setup_trace, List.append_assoc, List.cons_append,
    List.nil_append]

end Regular

theorem repeat_ops_count (l : List Op) (x : Op) (m : Nat) :
    (repeat_ops l m).count x = m * l.count x := by
  induction m with
  | zero => simp [repeat_ops]
  | succ m ih => rw [repeat_ops, List.count_append, ih, Nat.succ_mul, Nat.add_comm]

theorem ec_mul_reads (ii : Nat) (hii : ii < 8) :
    (ec_mul_setup_trace ++ select_trace
        ++ repeat_ops (select_trace ++ [Op.dbl, Op.dbl, Op.add]) 63
        ++ [Op.cond_add, Op.dbl, Op.dbl, Op.affine]).count (Op.read ii) = 64 := by
  rw [List.count_append, List.count_append, List.count_append, repeat_ops_count]
  interval_cases ii <;> decide

theorem ec_simul_reads (ii : Nat) (hii : ii < 8) :
    (ec_simul_setup_trace ++ select_trace
        ++ repeat_ops (select_trace ++ [Op.dbl, Op.add]) 126
        ++ [Op.cond_add, Op.dbl, Op.dbl, Op.affine]).count (Op.read ii) = 127 := by
  rw [List.count_append, List.count_append, List.count_append, repeat_ops_count]
  interval_cases ii <;> decide

end Snowshoe
